import Mathlib

/-!
Verification of `infoxchange/docker-forklift` (services layer).

This file gives a shallow embedding, in Lean 4, of the parts of
`forklift/base.py` and `forklift/services/base.py` that the claims below are
about, and proves or refutes each claim against that embedding.

Conventions of the embedding:
  * Python exceptions are modelled by the inductive type `Exc` (service-level
    code) and `PyErr` (urllib-level code); fallible Python code becomes
    `Except`-valued Lean functions.
  * Side effects that the claims mention (invoking a provider factory,
    calling `cleanup()`, calling `destroy_container`, starting a container)
    are made observable as explicit trace lists returned alongside results.
  * Python strings are Lean `String`s in the service layer, and `List Char`
    (`PyStr`) in the urllib layer where character-level parsing is reasoned
    about.
-/

set_option linter.unusedVariables false

/-! ## Exceptions of the service layer

`ProviderNotAvailable` (with subclasses `DependencyRequired`,
`DockerImageRequired` and `ContainerRefusingConnection`), `socket.error`,
`ImproperlyConfigured` (from `forklift/base.py`), Python `AttributeError`,
and a catch-all constructor for other exception classes. -/

inductive Exc where
  | providerNotAvailableExc : Exc
  | dockerImageRequired : String → Exc
  | containerRefusing : String → String → Exc
  | socketError : Exc
  | improperlyConfigured : String → Exc
  | attributeError : Exc
  | otherExc : Nat → Exc
deriving DecidableEq

/-- Whether an exception is an instance of class `ProviderNotAvailable`
(`DockerImageRequired` and `ContainerRefusingConnection` are subclasses). -/
def isPNA : Exc → Bool
  | .providerNotAvailableExc => true
  | .dockerImageRequired _ => true
  | .containerRefusing _ _ => true
  | _ => false

/-- `Service.TEMPORARY_AVAILABILITY_ERRORS = (ProviderNotAvailable, socket.error)`. -/
def defaultTempErrors (e : Exc) : Bool :=
  isPNA e || (match e with | .socketError => true | _ => false)

/-- `Service.PERMANENT_AVAILABILITY_ERRORS = ()`. -/
def defaultPermErrors (_ : Exc) : Bool := false

/-! ## `forklift.base.wait_for`

```
retries = int(retries)
for retry in range(1, retries + 1):
    try:
        return_value = func()
        if return_value:
            break
    except expected_exceptions:
        if retry == retries:
            raise
        else:
            pass
    time.sleep(1)
return return_value
```

One call of `func` at attempt `retry` is modelled by `f retry`: either a
returned boolean or a raised exception.  The loop is modelled with
structural fuel equal to the number of remaining iterations; `last` is the
current value of the `return_value` variable (`none` when still unbound, in
which case the `return return_value` after the loop raises
`UnboundLocalError`, modelled as `.nameErr`). -/

inductive CallRes where
  | ret : Bool → CallRes
  | exc : Exc → CallRes
deriving DecidableEq

inductive WaitOutcome where
  | val : Bool → WaitOutcome
  | raised : Exc → WaitOutcome
  | nameErr : WaitOutcome
deriving DecidableEq

def waitLoop (f : Nat → CallRes) (expected : Exc → Bool) (retries : Nat) :
    Nat → Nat → Option Bool → WaitOutcome
  | 0, _, last =>
    match last with
    | some v => .val v
    | none => .nameErr
  | fuel + 1, retry, last =>
    match f retry with
    | .ret b =>
      if b then .val b
      else waitLoop f expected retries fuel (retry + 1) (some b)
    | .exc e =>
      if expected e then
        if retry = retries then .raised e
        else waitLoop f expected retries fuel (retry + 1) last
      else .raised e

def waitFor (f : Nat → CallRes) (expected : Exc → Bool) (retries : Nat) : WaitOutcome :=
  waitLoop f expected retries retries 1 none

/-- `Service.wait_until_available(retries)`:

```
try:
    available = wait_for(self.check_available,
                         expected_exceptions=self.TEMPORARY_AVAILABILITY_ERRORS,
                         retries=retries)
    return available
except self.PERMANENT_AVAILABILITY_ERRORS as ex:
    print(...)
    return False
```

`checkAvailable i` models the `i`-th call of `self.check_available`. -/
def waitUntilAvailable (checkAvailable : Nat → CallRes) (isTemp isPerm : Exc → Bool)
    (retries : Nat) : WaitOutcome :=
  match waitFor checkAvailable isTemp retries with
  | .raised e => if isPerm e then .val false else .raised e
  | o => o

/-! ## Service instances, `cleanup`, `_set_overrides`, `provide` -/

/-- The `ContainerInfo` fields that `Service.cleanup` reads
(`container_info.name`, `container_info.new`). -/
structure ContainerRec where
  name : String
  new : Bool
deriving DecidableEq

/-- Result of one call to `check_available` on an instance. -/
inductive AvailRes where
  | val : Bool → AvailRes
  | exc : Exc → AvailRes
deriving DecidableEq

/-- A provided service instance: `tag` identifies the object, `checkAvail` is
the behaviour of its `check_available`, `providedBy` is the attribute set by
`provide`, `containerInfo` the attribute set by the `container` provider, and
`attrs` the plain attribute dictionary that `setattr` writes to. -/
structure Inst where
  tag : String
  checkAvail : AvailRes
  providedBy : String := ""
  containerInfo : Option ContainerRec := none
  attrs : List (String × String) := []
deriving DecidableEq

/-- `Service.available()`:

```
try:
    return self.check_available()
except self.TEMPORARY_AVAILABILITY_ERRORS:
    return False
except self.PERMANENT_AVAILABILITY_ERRORS:
    return False
```
-/
def availableRes (isTemp isPerm : Exc → Bool) (i : Inst) : AvailRes :=
  match i.checkAvail with
  | .val b => .val b
  | .exc e => if isTemp e then .val false else if isPerm e then .val false else .exc e

/-- `Service.cleanup()`.  The second component of the result is the list of
`destroy_container` calls made (by container name).  Accessing the missing
`container_info` attribute raises `AttributeError`.

```
if self.provided_by != 'container':
    return False
if self.container_info.new:
    destroy_container(self.container_info.name)
else:
    ... (log only)
return True
```
-/
def cleanupRun (i : Inst) : Except Exc (Bool × List String) :=
  if i.providedBy ≠ "container" then .ok (false, [])
  else
    match i.containerInfo with
    | none => .error .attributeError
    | some ci => if ci.new then .ok (true, [ci.name]) else .ok (true, [])

/-- Python `setattr` on the attribute dictionary of an instance. -/
def setAttr (k v : String) : List (String × String) → List (String × String)
  | [] => [(k, v)]
  | (k', v') :: rest => if k' = k then (k, v) :: rest else (k', v') :: setAttr k v rest

/-- Python `getattr` on the attribute dictionary. -/
def lookupA (k : String) : List (String × String) → Option String
  | [] => none
  | (k', v) :: rest => if k' = k then some v else lookupA k rest

/-- Message of the `ImproperlyConfigured` raised by `_set_overrides`. -/
def invalidParamMsg (k cls : String) : String :=
  "Invalid parameter " ++ k ++ " for service " ++ cls ++ "."

/-- `Service._set_overrides(service, overrides)`:

```
overrides = vars(overrides) if overrides else {}
allowed_overrides = cls.allow_override + cls.allow_override_list
for key, value in overrides.items():
    if value is not None:
        if key in allowed_overrides:
            setattr(service, key, value)
        else:
            raise ImproperlyConfigured(
                "Invalid parameter {0} for service {1}.".format(key, cls.__name__))
```

`ovs` lists the items of `vars(overrides)` in iteration order (a Python
namespace dictionary, so its keys are distinct); `attrs` is the instance
attribute dictionary being updated. -/
def setOverrides (cls : String) (allowed : List String) :
    List (String × String) → List (String × Option String) →
      Except Exc (List (String × String))
  | attrs, [] => .ok attrs
  | attrs, (_, none) :: rest => setOverrides cls allowed attrs rest
  | attrs, (k, some v) :: rest =>
    if k ∈ allowed then setOverrides cls allowed (setAttr k v attrs) rest
    else .error (.improperlyConfigured (invalidParamMsg k cls))

instance exceptDecEq {ε α : Type} [DecidableEq ε] [DecidableEq α] :
    DecidableEq (Except ε α) := fun a b =>
  match a, b with
  | .ok x, .ok y =>
    if h : x = y then .isTrue (by rw [h]) else .isFalse (by intro hc; cases hc; exact h rfl)
  | .error x, .error y =>
    if h : x = y then .isTrue (by rw [h]) else .isFalse (by intro hc; cases hc; exact h rfl)
  | .ok _, .error _ => .isFalse (by intro hc; cases hc)
  | .error _, .ok _ => .isFalse (by intro hc; cases hc)

/-- One entry of `cls.providers`: the provider's name, whether the provider
function carries the `transient` marker set by the `@transient_provider`
decorator (`getattr(provider_func, 'transient', False)`), and the result of
calling the provider factory on the application id. -/
structure Provider where
  pname : String
  transientFlag : Bool
  run : Except Exc Inst
deriving DecidableEq

/-- Message of the `ImproperlyConfigured` raised when all providers fail. -/
def noProvidersMsg (cls : String) : String :=
  "No available providers for service " ++ cls ++ "."

/-- Observable result of `Service.provide`: the returned instance or raised
exception, the providers whose factory function was actually invoked, and
the instances on which `cleanup()` was invoked. -/
structure ProvideTrace where
  outcome : Except Exc Inst
  invoked : List String
  cleanupCalls : List String
deriving DecidableEq

/-- `Service.provide(application_id, overrides, transient)`:

```
for provider in cls.providers:
    provider_func = getattr(cls, provider)
    if transient and not getattr(provider_func, 'transient', False):
        continue
    try:
        service = provider_func(application_id)
        setattr(service, 'provided_by', provider)
    except ProviderNotAvailable as exc:
        print(...)
        continue
    cls._set_overrides(service, overrides)
    try:
        if service.available():
            return service
    except:
        service.cleanup()
        raise
raise ImproperlyConfigured(
    "No available providers for service {0}.".format(cls.__name__))
```

A non-`ProviderNotAvailable` exception from the factory propagates (the
`except` clause only catches `ProviderNotAvailable`).  When `available()`
raises, `cleanup()` runs; if `cleanup()` itself raises, that exception
replaces the one being handled (Python exception chaining). -/
def provideGo (cls : String) (isTemp isPerm : Exc → Bool) (allowed : List String)
    (ovs : List (String × Option String)) (transientReq : Bool) :
    List Provider → ProvideTrace
  | [] => ⟨.error (.improperlyConfigured (noProvidersMsg cls)), [], []⟩
  | p :: rest =>
    if transientReq ∧ p.transientFlag = false then
      provideGo cls isTemp isPerm allowed ovs transientReq rest
    else
      match p.run with
      | .error e =>
        if isPNA e then
          let t := provideGo cls isTemp isPerm allowed ovs transientReq rest
          ⟨t.outcome, p.pname :: t.invoked, t.cleanupCalls⟩
        else ⟨.error e, [p.pname], []⟩
      | .ok sv0 =>
        let sv : Inst := { sv0 with providedBy := p.pname }
        match setOverrides cls allowed sv.attrs ovs with
        | .error e => ⟨.error e, [p.pname], []⟩
        | .ok attrs2 =>
          let sv2 : Inst := { sv with attrs := attrs2 }
          match availableRes isTemp isPerm sv2 with
          | .val true => ⟨.ok sv2, [p.pname], []⟩
          | .val false =>
            let t := provideGo cls isTemp isPerm allowed ovs transientReq rest
            ⟨t.outcome, p.pname :: t.invoked, t.cleanupCalls⟩
          | .exc e =>
            match cleanupRun sv2 with
            | .ok _ => ⟨.error e, [p.pname], [sv2.tag]⟩
            | .error e2 => ⟨.error e2, [p.pname], [sv2.tag]⟩

/-! ## `_ensure_container` (container orchestration)

The Docker daemon is modelled by a `DockerEnv` giving the answers the
daemon would return in one run of `_ensure_container`: whether
`inspect_container` succeeds for the service's container name, whether
`inspect_image` succeeds, the `['State']['Running']` flag of an existing
container, its IP address, the forwarded host port, and the result of each
`port_open('127.0.0.1', host_port)` poll (by 1-based attempt number).  The
model assumes the daemon stays reachable, i.e. the
`except requests.exceptions.ConnectionError` branch at the bottom of
`_ensure_container` is never taken. -/

structure DockerEnv where
  containerExists : Bool
  imageExists : Bool
  runningState : Bool
  ipAddr : String
  hostPort : String
  cacheRoot : String
  portOpen : Nat → Bool

/-- `container_name_for(image, application_id)`:
`image.replace('/', '_') + '__' + application_id`. -/
def containerNameFor (image appId : String) : String :=
  String.map (fun c => if c = '/' then '_' else c) image ++ "__" ++ appId

/-- `cache_directory(container_name)`: `os.path.join(save_cache_path('forklift'),
container_name)`; `cacheRoot` models `save_cache_path('forklift')`. -/
def cacheDirectory (cacheRoot name : String) : String :=
  cacheRoot ++ "/" ++ name

/-- `get_or_create_container`: returns `(created, status)`; only the
`status['State']['Running']` flag of the status is kept.  A freshly created
container is not running.

```
try:
    return False, docker_client.inspect_container(container_name)
except docker.errors.APIError:
    try:
        docker_client.inspect_image(image)
    except docker.errors.APIError:
        raise DockerImageRequired(image)
    docker_client.create_container(...)
    container_status = docker_client.inspect_container(container_name)
return True, container_status
```
-/
def getOrCreateContainer (image : String) (env : DockerEnv) : Except Exc (Bool × Bool) :=
  if env.containerExists then .ok (false, env.runningState)
  else if env.imageExists = false then .error (.dockerImageRequired image)
  else .ok (true, false)

/-- `_wait_for_port(image, port, retries=30)`:

```
if not wait_for(lambda: port_open('127.0.0.1', port), retries=retries):
    raise ContainerRefusingConnection(image, port)
```

`port_open` returns a boolean and never raises, so `expected_exceptions`
plays no role and the loop's `return_value` is always bound for
`retries ≥ 1`; the `.nameErr`/`.raised` outcomes are unreachable here and
mapped to an unrelated error. -/
def waitForPort (image hostPort : String) (portOpenF : Nat → Bool) (retries : Nat) :
    Except Exc Unit :=
  match waitFor (fun i => .ret (portOpenF i)) (fun _ => false) retries with
  | .val true => .ok ()
  | .val false => .error (.containerRefusing image hostPort)
  | .raised e => .error e
  | .nameErr => .error (.otherExc 0)

/-- The `ContainerInfo` namedtuple returned by `_ensure_container`. -/
structure ContainerInfoFull where
  host : String
  port : Nat
  dataDir : Option String
  name : String
  new : Bool
deriving DecidableEq

/-- Observable result of `_ensure_container`: returned value or raised
exception, `destroy_container` calls and `_start_container` calls made. -/
structure EnsureTrace where
  result : Except Exc ContainerInfoFull
  destroys : List String
  starts : List String
deriving DecidableEq

/-- `_ensure_container(image, port, application_id, data_dir, **kwargs)`:

```
container_name = container_name_for(image, application_id)
if data_dir is not None:
    cached_dir = cache_directory(container_name)
else:
    cached_dir = None
created, container_status = get_or_create_container(...)
if not container_status['State']['Running']:
    _start_container(...)
host = ...inspect_container(container_name)['NetworkSettings']['IPAddress']
host_port = docker_client.port(container_name, port)[0]['HostPort']
try:
    _wait_for_port(image, host_port)
except:
    if created:
        destroy_container(container_name)
    raise
return ContainerInfo(host=host, port=port, data_dir=cached_dir,
                     name=container_name, new=created)
```
-/
def ensureContainer (image : String) (port : Nat) (appId : String)
    (dataDir : Option String) (env : DockerEnv) : EnsureTrace :=
  let cname := containerNameFor image appId
  let cachedDir := dataDir.map fun _ => cacheDirectory env.cacheRoot cname
  match getOrCreateContainer image env with
  | .error e => ⟨.error e, [], []⟩
  | .ok (created, running) =>
    let starts := if running = false then [cname] else []
    match waitForPort image env.hostPort env.portOpen 30 with
    | .error e =>
      if created then ⟨.error e, [cname], starts⟩
      else ⟨.error e, [], starts⟩
    | .ok _ =>
      ⟨.ok ⟨env.ipAddr, port, cachedDir, cname, created⟩, [], starts⟩

/-! ## Character-level string primitives (Python `str` operations)

URLs are handled at character level: `PyStr` is `List Char`. -/

abbrev PyStr := List Char

inductive PyErr where
  | valueError
  | typeError
  | indexError
deriving DecidableEq

/-- Python `c in s` for a single character `c`. -/
def hasChar (c : Char) : PyStr → Bool
  | [] => false
  | d :: rest => if d = c then true else hasChar c rest

/-- Python `s.find(c)` for a single character: index of the first
occurrence, `none` for `-1`. -/
def pyFindChar (c : Char) : PyStr → Option Nat
  | [] => none
  | d :: rest => if d = c then some 0 else (pyFindChar c rest).map (· + 1)

/-- Python `s.find(c, start)`: first index `≥ start`, `none` for `-1`. -/
def pyFindCharFrom (c : Char) (s : PyStr) (start : Nat) : Option Nat :=
  (pyFindChar c (s.drop start)).map (· + start)

/-- Python `s.rfind(c)`: index of the last occurrence, `none` for `-1`. -/
def pyRFindChar (c : Char) : PyStr → Option Nat
  | [] => none
  | d :: rest =>
    match pyRFindChar c rest with
    | some i => some (i + 1)
    | none => if d = c then some 0 else none

/-- Python `s.partition(c)`: `(before, found, after)` at the first
occurrence; `(s, False, '')` when `c` is absent. -/
def pyPartition (c : Char) : PyStr → PyStr × Bool × PyStr
  | [] => ([], false, [])
  | d :: rest =>
    if d = c then ([], true, rest)
    else
      let (a, f, b) := pyPartition c rest
      (d :: a, f, b)

/-- Python `s.rpartition(c)`: `(before, found, after)` at the last
occurrence; `('', False, s)` when `c` is absent. -/
def pyRPartition (c : Char) : PyStr → PyStr × Bool × PyStr
  | [] => ([], false, [])
  | d :: rest =>
    let (a, f, b) := pyRPartition c rest
    if f then (d :: a, true, b)
    else if d = c then ([], true, rest)
    else ([], false, d :: rest)

/-- Python `s.split(c, 1)` (callers guard that `c` occurs in `s`):
the parts before and after the first occurrence. -/
def splitOnce (c : Char) : PyStr → PyStr × PyStr
  | [] => ([], [])
  | d :: rest =>
    if d = c then ([], rest)
    else
      let (a, b) := splitOnce c rest
      (d :: a, b)

/-- Python `s.split(c)` for a single-character separator, no limit. -/
def splitAllChar (c : Char) : PyStr → List PyStr
  | [] => [[]]
  | d :: rest =>
    if d = c then [] :: splitAllChar c rest
    else
      match splitAllChar c rest with
      | a :: tail => (d :: a) :: tail
      | [] => [[d]]

/-- Python `c.join(parts)` for a single-character separator. -/
def joinChar (c : Char) : List PyStr → PyStr
  | [] => []
  | [s] => s
  | s :: t :: ts => s ++ c :: joinChar c (t :: ts)

/-- Python `str.lower` on one character (ASCII; all characters the claims
quantify over are ASCII). -/
def pyLower (c : Char) : Char :=
  if 'A' ≤ c ∧ c ≤ 'Z' then Char.ofNat (c.toNat + 32) else c

def pyLowerStr (s : PyStr) : PyStr := s.map pyLower

def digitChar (n : Nat) : Char := Char.ofNat (48 + n)

def natDigitsRev : Nat → PyStr
  | 0 => []
  | n + 1 => digitChar ((n + 1) % 10) :: natDigitsRev ((n + 1) / 10)
termination_by n => n
decreasing_by exact Nat.div_lt_self (Nat.succ_pos _) (by norm_num)

/-- Python `str(n)` for a natural number. -/
def natDigits (n : Nat) : PyStr := if n = 0 then ['0'] else (natDigitsRev n).reverse

/-- Python `int(s, 10)` on a nonempty all-digit string. -/
def natOfDigits (s : PyStr) : Nat := s.foldl (fun n c => n * 10 + (c.toNat - 48)) 0

/-- Generic `mapM` over `Except`, written out for easy unfolding. -/
def mapME {α β ε : Type} (f : α → Except ε β) : List α → Except ε (List β)
  | [] => .ok []
  | a :: rest =>
    match f a with
    | .error e => .error e
    | .ok b =>
      match mapME f rest with
      | .error e => .error e
      | .ok bs => .ok (b :: bs)

/-! ## `urllib.parse` model (CPython 3.4, the Python version of the repo's era)

`urlsplit` / `urlparse` / `urlunsplit` / `urlunparse` (= `geturl`), the
netloc-derived properties `username` / `password` / `hostname` / `port` of
`ParseResult`, and `replace_part` from `forklift/services/base.py`.
The result cache of `urlsplit` is semantically transparent and not
modelled; `allow_fragments` is always `True` here (all call sites use the
default). -/

def schemeCharsList : PyStr :=
  "abcdefghijklmnopqrstuvwxyzABCDEFGHIJKLMNOPQRSTUVWXYZ0123456789+-.".data

structure SplitResult where
  scheme : PyStr
  netloc : PyStr
  path : PyStr
  query : PyStr
  fragment : PyStr
deriving DecidableEq

structure ParseResult where
  scheme : PyStr
  netloc : PyStr
  path : PyStr
  params : PyStr
  query : PyStr
  fragment : PyStr
deriving DecidableEq

def isNetlocDelim (c : Char) : Bool :=
  if c = '/' then true else if c = '?' then true else if c = '#' then true else false

/-- `_splitnetloc(url, start)`: split at the earliest of `/`, `?`, `#`
occurring at or after `start` (computed in the source as the minimum of
three `find` calls, equivalently a take/drop at the first delimiter). -/
def splitNetlocAt (url : PyStr) (start : Nat) : PyStr × PyStr :=
  let rest := url.drop start
  (rest.takeWhile (fun c => !isNetlocDelim c), rest.dropWhile (fun c => !isNetlocDelim c))

/-- The "Invalid IPv6 URL" check of `urlsplit`. -/
def bracketsInvalid (netloc : PyStr) : Bool :=
  (hasChar '[' netloc && !hasChar ']' netloc) ||
    (hasChar ']' netloc && !hasChar '[' netloc)

/-- The fragment/query extraction shared by all branches of `urlsplit`:

```
if allow_fragments and '#' in url:
    url, fragment = url.split('#', 1)
if '?' in url:
    url, query = url.split('?', 1)
```

Returns `(path, query, fragment)`. -/
def splitQueryFragment (url : PyStr) : PyStr × PyStr × PyStr :=
  let fr := if hasChar '#' url then splitOnce '#' url else (url, [])
  let qu := if hasChar '?' fr.1 then splitOnce '?' fr.1 else (fr.1, [])
  (qu.1, qu.2, fr.2)

/-- The common tail of `urlsplit` once `scheme` has been decided and
stripped from `url` (both the `http` fast path and the general path run
these same steps). -/
def urlsplitTail (scheme url : PyStr) : Except PyErr SplitResult :=
  if url.take 2 = ['/', '/'] then
    let nl := splitNetlocAt url 2
    if bracketsInvalid nl.1 then .error .valueError
    else
      let pqf := splitQueryFragment nl.2
      .ok ⟨scheme, nl.1, pqf.1, pqf.2.1, pqf.2.2⟩
  else
    let pqf := splitQueryFragment url
    .ok ⟨scheme, [], pqf.1, pqf.2.1, pqf.2.2⟩

def allSchemeChars (s : PyStr) : Bool := s.all fun c => hasChar c schemeCharsList

/-- `urlsplit(url)` (with `scheme=''`, `allow_fragments=True`):

```
i = url.find(':')
if i > 0:
    if url[:i] == 'http':                       # optimize the common case
        scheme, url = url[:i].lower(), url[i+1:]
        <common tail>
    for c in url[:i]:
        if c not in scheme_chars:
            break
    else:
        rest = url[i+1:]
        if not rest or any(c not in '0123456789' for c in rest):
            scheme, url = url[:i].lower(), rest
<common tail>
```
-/
def urlsplit (url : PyStr) : Except PyErr SplitResult :=
  match pyFindChar ':' url with
  | some i =>
    if 0 < i then
      if url.take i = "http".data then
        urlsplitTail (pyLowerStr (url.take i)) (url.drop (i + 1))
      else if allSchemeChars (url.take i) then
        let rest := url.drop (i + 1)
        if rest = [] || rest.any (fun c => !c.isDigit) then
          urlsplitTail (pyLowerStr (url.take i)) rest
        else urlsplitTail [] url
      else urlsplitTail [] url
    else urlsplitTail [] url
  | none => urlsplitTail [] url

/-- `uses_params` from `urllib.parse`. -/
def usesParamsList : List PyStr :=
  ["ftp", "hdl", "prospero", "http", "imap", "ftps", "shttp", "rtsp",
   "rtspu", "sip", "sips", "mms", "", "sftp", "tel"].map String.data

def memStr (s : PyStr) : List PyStr → Bool
  | [] => false
  | t :: rest => if s = t then true else memStr s rest

/-- `_splitparams(url)` (callers guard that `;` occurs in `url`):

```
if '/' in url:
    i = url.find(';', url.rfind('/'))
    if i < 0:
        return url, ''
else:
    i = url.find(';')
return url[:i], url[i+1:]
```
-/
def splitParams (url : PyStr) : PyStr × PyStr :=
  let iOpt :=
    if hasChar '/' url then
      match pyRFindChar '/' url with
      | some j => pyFindCharFrom ';' url j
      | none => pyFindChar ';' url
    else pyFindChar ';' url
  match iOpt with
  | none => (url, [])
  | some i => (url.take i, url.drop (i + 1))

/-- `urlparse(url)`:

```
splitresult = urlsplit(url, scheme, allow_fragments)
scheme, netloc, url, query, fragment = splitresult
if ';' in url and scheme in uses_params:
    url, params = _splitparams(url)
else:
    params = ''
return ParseResult(scheme, netloc, url, params, query, fragment)
```
-/
def urlparse (url : PyStr) : Except PyErr ParseResult :=
  match urlsplit url with
  | .error e => .error e
  | .ok s =>
    if hasChar ';' s.path && memStr s.scheme usesParamsList then
      let pp := splitParams s.path
      .ok ⟨s.scheme, s.netloc, pp.1, pp.2, s.query, s.fragment⟩
    else .ok ⟨s.scheme, s.netloc, s.path, [], s.query, s.fragment⟩

/-- `urlunsplit((scheme, netloc, url, query, fragment))`:

```
if netloc or (url and url[:2] == '//'):
    if url and url[:1] != '/': url = '/' + url
    url = '//' + (netloc or '') + url
if scheme: url = scheme + ':' + url
if query: url = url + '?' + query
if fragment: url = url + '#' + fragment
return url
```
-/
def urlunsplit (scheme netloc path query fragment : PyStr) : PyStr :=
  let url := path
  let url :=
    if netloc ≠ [] ∨ (url ≠ [] ∧ url.take 2 = ['/', '/']) then
      '/' :: '/' :: (netloc ++ (if url ≠ [] ∧ url.take 1 ≠ ['/'] then '/' :: url else url))
    else url
  let url := if scheme ≠ [] then scheme ++ ':' :: url else url
  let url := if query ≠ [] then url ++ '?' :: query else url
  if fragment ≠ [] then url ++ '#' :: fragment else url

/-- `urlunparse` = `ParseResult.geturl()`:

```
if params: url = "%s;%s" % (url, params)
return urlunsplit((scheme, netloc, url, query, fragment))
```
-/
def urlunparse (p : ParseResult) : PyStr :=
  urlunsplit p.scheme p.netloc
    (if p.params ≠ [] then p.path ++ ';' :: p.params else p.path) p.query p.fragment

/-! ## Netloc-derived properties and `replace_part` -/

/-- A Python value as stored in the `netloc` dictionary of `replace_part`:
`None`, a string, or an int (ports). -/
inductive Value where
  | vnone
  | vstr (s : PyStr)
  | vint (n : Nat)
deriving DecidableEq

/-- Python truthiness of a `Value`. -/
def Value.truthy : Value → Bool
  | .vnone => false
  | .vstr s => if s = [] then false else true
  | .vint n => if n = 0 then false else true

/-- Python `str(v)`. -/
def pyStrVal : Value → PyStr
  | .vnone => "None".data
  | .vstr s => s
  | .vint n => natDigits n

/-- The `_userinfo` property of a split result:

```
userinfo, have_info, hostinfo = netloc.rpartition('@')
if have_info:
    username, have_password, password = userinfo.partition(':')
    if not have_password: password = None
else:
    username = password = None
return username, password
```
-/
def userinfoPair (netloc : PyStr) : Value × Value :=
  let r := pyRPartition '@' netloc
  if r.2.1 then
    let p := pyPartition ':' r.1
    (.vstr p.1, if p.2.1 then .vstr p.2.2 else .vnone)
  else (.vnone, .vnone)

/-- The `_hostinfo` property of a split result:

```
_, _, hostinfo = netloc.rpartition('@')
_, have_open_br, bracketed = hostinfo.partition('[')
if have_open_br:
    hostname, _, port = bracketed.partition(']')
    _, _, port = port.partition(':')
else:
    hostname, _, port = hostinfo.partition(':')
if not port: port = None
return hostname, port
```
-/
def hostinfoPair (netloc : PyStr) : PyStr × Option PyStr :=
  let hostinfo := (pyRPartition '@' netloc).2.2
  let br := pyPartition '[' hostinfo
  if br.2.1 then
    let hp := pyPartition ']' br.2.2
    let pp := pyPartition ':' hp.2.2
    (hp.1, if pp.2.2 = [] then none else some pp.2.2)
  else
    let hp := pyPartition ':' hostinfo
    (hp.1, if hp.2.2 = [] then none else some hp.2.2)

def ParseResult.username (u : ParseResult) : Value := (userinfoPair u.netloc).1

def ParseResult.password (u : ParseResult) : Value := (userinfoPair u.netloc).2

/-- The `hostname` property: `None` if empty, else lowercased. -/
def ParseResult.hostname (u : ParseResult) : Value :=
  let h := (hostinfoPair u.netloc).1
  if h = [] then .vnone else .vstr (pyLowerStr h)

/-- The `port` property: `None` when absent, else `int(port, 10)`, which
raises `ValueError` on a non-digit string (signs/whitespace, which `int`
would also accept, do not occur in the URLs the claims quantify over). -/
def portProp (u : ParseResult) : Except PyErr Value :=
  match (hostinfoPair u.netloc).2 with
  | none => .ok .vnone
  | some p =>
    if p.all Char.isDigit then .ok (.vint (natOfDigits p)) else .error .valueError

/-- The URL parts `replace_part` is ever called on in the source. -/
inductive UPart where
  | username
  | password
  | hostname
  | port
  | path
deriving DecidableEq

/-- The `netloc_str` reassembly steps of `replace_part`, on the four
dictionary values after the chosen one has been replaced:

```
netloc_str = netloc['hostname']
if netloc['port']:
    netloc_str += ':' + str(netloc['port'])
if netloc['username'] or netloc['password']:
    userinfo = netloc['username'] or ''
    if netloc['password']:
        userinfo += ':' + netloc['password']
    netloc_str = userinfo + '@' + netloc_str
```
-/
def rebuildNetloc (hostv portv userv passv : Value) : Except PyErr PyStr :=
  match hostv with
  | .vstr h =>
    let base := h ++ (if portv.truthy then ':' :: pyStrVal portv else [])
    if userv.truthy || passv.truthy then
      match (if userv.truthy then userv else .vstr []) with
      | .vstr us =>
        if passv.truthy then
          match passv with
          | .vstr ps => .ok ((us ++ ':' :: ps) ++ '@' :: base)
          | _ => .error .typeError
        else .ok (us ++ '@' :: base)
      | _ => .error .typeError
    else .ok base
  | _ => .error .typeError


/-- `replace_part(url, **{part: value})` for one keyword argument.  For a
netloc part, the four netloc properties are read, the chosen one is
replaced by `value`, and the netloc string is reassembled:

```
netloc = {p: getattr(url, p) for p in ('username', 'password', 'hostname', 'port')}
netloc[part] = value
netloc_str = netloc['hostname']
if netloc['port']:
    netloc_str += ':' + str(netloc['port'])
if netloc['username'] or netloc['password']:
    userinfo = netloc['username'] or ''
    if netloc['password']:
        userinfo += ':' + netloc['password']
    netloc_str = userinfo + '@' + netloc_str
url = url._replace(netloc=netloc_str)
```

Reading the `port` property can raise `ValueError`; concatenating onto a
non-string hostname (or concatenating a non-string username/password into
the userinfo) raises `TypeError`.  When the hostname is `None`/non-string
and nothing is concatenated onto it, CPython would silently store the
non-string as the new netloc, poisoning any later attribute access on the
result; this case is mapped to `.error .typeError` as well (it is
unreachable under the hypotheses of every theorem below, which require a
present hostname).  Likewise `._replace(path=value)` with a non-string
stores the non-string; only string paths occur here. -/
def replacePart1 (url : ParseResult) (part : UPart) (value : Value) :
    Except PyErr ParseResult :=
  match part with
  | .path =>
    match value with
    | .vstr s => .ok { url with path := s }
    | _ => .error .typeError
  | _ =>
    match portProp url with
    | .error e => .error e
    | .ok port0 =>
      let hostv := if part = UPart.hostname then value else url.hostname
      let portv := if part = UPart.port then value else port0
      let userv := if part = UPart.username then value else url.username
      let passv := if part = UPart.password then value else url.password
      match rebuildNetloc hostv portv userv passv with
      | .error e => .error e
      | .ok ns => .ok { url with netloc := ns }

/-! ## `URLService`: urls setter, `url_string`, descriptors -/

/-- `pipe_split` on a single string argument: the string is wrapped in a
1-tuple, so it is split iff it contains `|`. -/
def pipeSplitStr (s : PyStr) : List PyStr :=
  if hasChar '|' s then splitAllChar '|' s else [s]

/-- The `URLService.urls` property setter applied to a string (as in
`URLService.__init__` from a configuration string): `pipe_split`, then
`urlparse` on each element. -/
def setUrlsStr (s : PyStr) : Except PyErr (List ParseResult) :=
  mapME urlparse (pipeSplitStr s)

/-- `URLService.url_string()`: `'|'.join(url.geturl() for url in self.urls)`. -/
def urlString (urls : List ParseResult) : PyStr :=
  joinChar '|' (urls.map urlunparse)

/-- `URLMultiValueDescriptor.__set__` applied to an already `pipe_split`
list of string values `vs`:

```
url = instance.urls[0]
instance.urls = tuple(self.setter(url, v) for v in pipe_split(value))
```

(`instance.urls[0]` on an empty tuple raises `IndexError`; the
`instance.urls = tuple(...)` assignment passes through the `urls` property
setter, whose `pipe_split` and parse-if-string steps are both the identity
on a tuple of already-parsed results.) -/
def mvSetVals (setter : ParseResult → PyStr → Except PyErr ParseResult)
    (urls : List ParseResult) (vs : List PyStr) : Except PyErr (List ParseResult) :=
  match urls with
  | [] => .error .indexError
  | u0 :: _ => mapME (setter u0) vs

/-- Setter of `host = hostname = URLMultiValueDescriptor('hostname')`. -/
def hostSetter (u : ParseResult) (v : PyStr) : Except PyErr ParseResult :=
  replacePart1 u .hostname (.vstr v)

/-- Setter of `port = URLMultiValueDescriptor('port', default=None)`. -/
def portSetter (u : ParseResult) (v : PyStr) : Except PyErr ParseResult :=
  replacePart1 u .port (.vstr v)

/-! ## Concrete inputs used by counterexamples and witnesses -/

/-- `check_available` behaviour with `k = 1`: the first call raises the
temporary `ProviderNotAvailable`, every later call returns `True`. -/
def c1exF (i : Nat) : CallRes :=
  if i = 1 then .exc .providerNotAvailableExc else .ret true

/-- `check_available` behaviour with `k = 2`: the first two calls raise the
temporary `socket.error`, every later call returns `True`. -/
def c1wF (i : Nat) : CallRes :=
  if i ≤ 2 then .exc .socketError else .ret true

/-- An instance as produced by the `localhost` provider. -/
def c2InstLocal : Inst :=
  { tag := "pg-local", checkAvail := .val true, providedBy := "localhost" }

/-- An instance as produced by the `container` provider, container newly
created by this invocation. -/
def c2InstNew : Inst :=
  { tag := "pg-cont", checkAvail := .val true, providedBy := "container",
    containerInfo := some ⟨"postgres__app", true⟩ }

/-- An instance as produced by the `container` provider, container reused. -/
def c2InstOld : Inst :=
  { tag := "pg-cont2", checkAvail := .val true, providedBy := "container",
    containerInfo := some ⟨"postgres__app", false⟩ }

/-! ## Well-formed URLs (for the round-trip claim)

The claims quantify over "well-formed URL strings".  `WellFormedURL` makes
this precise: a scheme of lowercase scheme characters, `://`, a nonempty
netloc free of delimiters and brackets, an absolute (or empty) path, and
optional nonempty query and fragment; `|` (the `URLService` separator,
which is not a valid URL character unencoded) nowhere. -/

structure URLParts where
  scheme : PyStr
  netloc : PyStr
  path : PyStr
  query : Option PyStr
  fragment : Option PyStr

/-- An optional URL component with its leading delimiter (`?query`,
`#fragment`), empty when absent. -/
def optPrefixed (c : Char) : Option PyStr → PyStr
  | none => []
  | some s => c :: s

/-- An optional URL component without its delimiter, empty when absent. -/
def optVal : Option PyStr → PyStr
  | none => []
  | some s => s

def buildURL (p : URLParts) : PyStr :=
  p.scheme ++ ':' :: '/' :: '/' :: p.netloc ++ p.path
    ++ optPrefixed '?' p.query ++ optPrefixed '#' p.fragment

def schemeCharOK (c : Char) : Prop :=
  hasChar c schemeCharsList = true ∧ pyLower c = c

def optQueryOK : Option PyStr → Prop
  | none => True
  | some q => q ≠ [] ∧ ∀ c ∈ q, c ≠ '#' ∧ c ≠ '|'

def optFragmentOK : Option PyStr → Prop
  | none => True
  | some f => f ≠ [] ∧ ∀ c ∈ f, c ≠ '|'

/-- The query has no `#` (needed for the fragment split). -/
def optNoHash : Option PyStr → Prop
  | none => True
  | some s => ∀ c ∈ s, c ≠ '#'

/-- The path is empty or absolute. -/
def pathShapeOK : PyStr → Prop
  | [] => True
  | c :: _ => c = '/'

def partsOK (p : URLParts) : Prop :=
  p.scheme ≠ [] ∧ (∀ c ∈ p.scheme, schemeCharOK c) ∧
  p.netloc ≠ [] ∧
  (∀ c ∈ p.netloc, c ≠ '/' ∧ c ≠ '?' ∧ c ≠ '#' ∧ c ≠ '[' ∧ c ≠ ']' ∧ c ≠ '|') ∧
  (∀ c ∈ p.path, c ≠ '?' ∧ c ≠ '#' ∧ c ≠ ';' ∧ c ≠ '|') ∧
  pathShapeOK p.path ∧
  optQueryOK p.query ∧ optFragmentOK p.fragment

def WellFormedURL (u : PyStr) : Prop :=
  ∃ p, partsOK p ∧ u = buildURL p

/-! ## Decomposed netlocs (for the `replace_part` frame claims)

A netloc in the shape `[user[:pw]@]host[:port]` that the netloc properties
of a parse result read back faithfully.  `wfNetlocBase` states the
conditions the C8/C9 counterexamples force: host present, lowercase and
free of `@ : [ ]`; port, when present, a nonempty digit string; username
`None` or (when no password follows) nonempty, free of `:`; password
`None` or nonempty.  `portNonzero` additionally excludes the falsy port
`0`, which `replace_part` silently drops. -/

structure NetlocParts where
  user : Option PyStr
  pw : Option PyStr
  host : PyStr
  portDigits : Option PyStr

/-- The `:port` suffix of a netloc, empty when the port is absent. -/
def portPart : Option PyStr → PyStr
  | none => []
  | some p => ':' :: p

/-- The `username` property value determined by the decomposition. -/
def userVal : Option PyStr → Value
  | none => .vnone
  | some u => .vstr u

/-- The `password` property value determined by the decomposition. -/
def pwVal : Option PyStr → Option PyStr → Value
  | some _, some pw => .vstr pw
  | _, _ => .vnone

/-- The `port` property value determined by the decomposition. -/
def portVal : Option PyStr → Value
  | none => .vnone
  | some p => .vint (natOfDigits p)

def mkNetloc (np : NetlocParts) : PyStr :=
  let base := np.host ++ portPart np.portDigits
  match np.user, np.pw with
  | none, none => base
  | some u, none => u ++ '@' :: base
  | some u, some pw => (u ++ ':' :: pw) ++ '@' :: base
  | none, some pw => (':' :: pw) ++ '@' :: base

/-- The `userinfo@` prefix of a decomposed netloc, empty without creds. -/
def credsPrefix : Option PyStr → Option PyStr → PyStr
  | none, none => []
  | some u, none => u ++ ['@']
  | some u, some pw => (u ++ ':' :: pw) ++ ['@']
  | none, some pw => (':' :: pw) ++ ['@']

def portDigitsOK : Option PyStr → Prop
  | none => True
  | some p => p ≠ [] ∧ ∀ c ∈ p, c.isDigit = true

def credsOK : Option PyStr → Option PyStr → Prop
  | none, none => True
  | some u, none => u ≠ [] ∧ ∀ c ∈ u, c ≠ ':' ∧ c ≠ '@'
  | some u, some pw => (∀ c ∈ u, c ≠ ':' ∧ c ≠ '@') ∧ pw ≠ [] ∧ ∀ c ∈ pw, c ≠ '@'
  | none, some _ => False

def wfNetlocBase (np : NetlocParts) : Prop :=
  np.host ≠ [] ∧
  (∀ c ∈ np.host, c ≠ '@' ∧ c ≠ ':' ∧ c ≠ '[' ∧ c ≠ ']' ∧ pyLower c = c) ∧
  portDigitsOK np.portDigits ∧ credsOK np.user np.pw

def portNZ : Option PyStr → Prop
  | none => True
  | some p => natOfDigits p ≠ 0

def portNonzero (np : NetlocParts) : Prop :=
  portNZ np.portDigits

def wfNetloc (np : NetlocParts) : Prop :=
  wfNetlocBase np ∧ portNonzero np

/-- A value assignable as a multi-value host: nonempty, lowercase, free of
the characters that would re-parse as other netloc components. -/
def hostValOK (v : PyStr) : Prop :=
  v ≠ [] ∧ ∀ c ∈ v, c ≠ '@' ∧ c ≠ ':' ∧ c ≠ '[' ∧ c ≠ ']' ∧ pyLower c = c

/-- The canonical digit string that `':' + str(netloc['port'])` rebuilds
from the integer `port` property. -/
def canonPort (po : Option PyStr) : Option PyStr :=
  po.map fun p => natDigits (natOfDigits p)

/-- The endpoint produced by assigning host value `v` to a template whose
netloc decomposes as `np`: the host is replaced and the port digit string
is rebuilt from the integer `port` property. -/
def hostAssign (np : NetlocParts) (u0 : ParseResult) (v : PyStr) : ParseResult :=
  { u0 with netloc := mkNetloc { np with host := v, portDigits := canonPort np.portDigits } }

/-- The endpoint produced by assigning (nonempty) port value `v` to a
template whose netloc decomposes as `np`. -/
def portAssign (np : NetlocParts) (u0 : ParseResult) (v : PyStr) : ParseResult :=
  { u0 with netloc := mkNetloc { np with portDigits := some v } }

instance schemeCharOKDec (c : Char) : Decidable (schemeCharOK c) := by
  unfold schemeCharOK
  infer_instance

instance optQueryOKDec : (o : Option PyStr) → Decidable (optQueryOK o)
  | none => .isTrue trivial
  | some q => by unfold optQueryOK; infer_instance

instance optFragmentOKDec : (o : Option PyStr) → Decidable (optFragmentOK o)
  | none => .isTrue trivial
  | some f => by unfold optFragmentOK; infer_instance

instance optNoHashDec : (o : Option PyStr) → Decidable (optNoHash o)
  | none => .isTrue trivial
  | some s => by unfold optNoHash; infer_instance

instance pathShapeOKDec : (s : PyStr) → Decidable (pathShapeOK s)
  | [] => .isTrue trivial
  | c :: _ => by unfold pathShapeOK; infer_instance

instance partsOKDec (p : URLParts) : Decidable (partsOK p) := by
  unfold partsOK
  infer_instance

instance portDigitsOKDec : (o : Option PyStr) → Decidable (portDigitsOK o)
  | none => .isTrue trivial
  | some q => by unfold portDigitsOK; infer_instance

instance credsOKDec : (u : Option PyStr) → (w : Option PyStr) → Decidable (credsOK u w)
  | none, none => .isTrue trivial
  | some u, none => by unfold credsOK; infer_instance
  | some u, some w => by unfold credsOK; infer_instance
  | none, some w => .isFalse (fun h => h)

instance wfNetlocBaseDec (np : NetlocParts) : Decidable (wfNetlocBase np) := by
  unfold wfNetlocBase
  infer_instance

instance portNZDec : (o : Option PyStr) → Decidable (portNZ o)
  | none => .isTrue trivial
  | some q => by unfold portNZ; infer_instance

instance portNonzeroDec (np : NetlocParts) : Decidable (portNonzero np) := by
  unfold portNonzero
  infer_instance

instance wfNetlocDec (np : NetlocParts) : Decidable (wfNetloc np) := by
  unfold wfNetloc
  infer_instance

instance hostValOKDec (v : PyStr) : Decidable (hostValOK v) := by
  unfold hostValOK
  infer_instance

/-- `urlparse('http://@h/x')` (empty-string username, no password). -/
def c8T : ParseResult := ⟨"http".data, "@h".data, "/x".data, [], [], []⟩

/-- Its first endpoint after assigning `host` the single value `h2`. -/
def c8T2 : ParseResult := ⟨"http".data, "h2".data, "/x".data, [], [], []⟩

/-- `urlparse('http://h:0/p')` (port 0, a falsy port property). -/
def c9T : ParseResult := ⟨"http".data, "h:0".data, "/p".data, [], [], []⟩

/-- The same URL after setting `username` to `u`: the port has vanished. -/
def c9T2 : ParseResult := ⟨"http".data, "u@h".data, "/p".data, [], [], []⟩

/-- Two well-formed URLs for the round-trip witness. -/
def c7U1 : PyStr := "http://db1.example.com:5432/app".data

def c7U2 : PyStr := "postgres://user:pw@db2.example.com/app?sslmode=req".data

def c7P1 : URLParts :=
  ⟨"http".data, "db1.example.com:5432".data, "/app".data, none, none⟩

def c7P2 : URLParts :=
  ⟨"postgres".data, "user:pw@db2.example.com".data, "/app".data,
   some "sslmode=req".data, none⟩

/-- Template endpoint and netloc decomposition for the C8/C9 witnesses. -/
def c8WT : ParseResult :=
  ⟨"http".data, "user:pw@db.example:5432".data, "/app".data, [], [], []⟩

def c8WNp : NetlocParts :=
  ⟨some "user".data, some "pw".data, "db.example".data, some "5432".data⟩

/-- A provider list with a non-transient provider ahead of a transient one,
both of which would succeed. -/
def c3Ps : List Provider :=
  [⟨"localhost", false, .ok { tag := "inst-local", checkAvail := .val true }⟩,
   ⟨"container", true, .ok { tag := "inst-cont", checkAvail := .val true }⟩]

/-- A provider list on which every factory raises `ProviderNotAvailable`
(the second raises the `DockerImageRequired` subclass). -/
def c6Ps : List Provider :=
  [⟨"localhost", false, .error .providerNotAvailableExc⟩,
   ⟨"container", true, .error (.dockerImageRequired "redis")⟩]

/-- An instance as produced by the `container` provider's factory, with a
newly created container attached. -/
def c10Inst : Inst :=
  { tag := "pg-c10", checkAvail := .val true,
    containerInfo := some ⟨"postgres__app", true⟩ }

/-- A first provider whose factory raises `ProviderNotAvailable`. -/
def c10Pre : List Provider := [⟨"localhost", false, .error .providerNotAvailableExc⟩]

/-- The `container` provider, whose factory returns `c10Inst`. -/
def c10P : Provider := ⟨"container", true, .ok c10Inst⟩

/-- A Docker environment in which the service's container does not yet
exist, its image is present, and the forwarded port never opens. -/
def c5Env : DockerEnv :=
  { containerExists := false, imageExists := true, runningState := false,
    ipAddr := "172.17.0.2", hostPort := "49153",
    cacheRoot := "/home/dev/.cache/forklift", portOpen := fun _ => false }

/-- The same environment, but the container already exists (stopped). -/
def c5EnvReuse : DockerEnv := { c5Env with containerExists := true }

/-! # Helper lemmas: the `wait_for` loop -/

theorem waitLoop_all_raise (f : Nat → CallRes) (expected : Exc → Bool) (retries : Nat)
    (es : Nat → Exc)
    (hf : ∀ i, 1 ≤ i → i ≤ retries → f i = .exc (es i) ∧ expected (es i) = true) :
    ∀ fuel retry last, retry + fuel = retries + 1 → 1 ≤ retry → retry ≤ retries →
      waitLoop f expected retries fuel retry last = .raised (es retries) := by
  intro fuel
  induction fuel with
  | zero => intro retry last h1 h2 h3; omega
  | succ n ih =>
    intro retry last h1 h2 h3
    obtain ⟨hfe, hexp⟩ := hf retry h2 h3
    by_cases hr : retry = retries
    · subst hr
      simp [waitLoop, hfe, hexp]
    · have hstep : waitLoop f expected retries (n + 1) retry last
          = waitLoop f expected retries n (retry + 1) last := by
        simp [waitLoop, hfe, hexp, hr]
      rw [hstep]
      exact ih (retry + 1) last (by omega) (by omega) (by omega)

theorem waitLoop_success (f : Nat → CallRes) (expected : Exc → Bool) (retries k : Nat)
    (hraise : ∀ i, 1 ≤ i → i ≤ k → ∃ e, f i = .exc e ∧ expected e = true)
    (hsucc : f (k + 1) = .ret true) (hk : k < retries) :
    ∀ fuel retry last, retry + fuel = retries + 1 → 1 ≤ retry → retry ≤ k + 1 →
      waitLoop f expected retries fuel retry last = .val true := by
  intro fuel
  induction fuel with
  | zero => intro retry last h1 h2 h3; omega
  | succ n ih =>
    intro retry last h1 h2 h3
    by_cases hr : retry = k + 1
    · subst hr
      simp [waitLoop, hsucc]
    · have h3' : retry ≤ k := by omega
      obtain ⟨e, hfe, hexp⟩ := hraise retry h2 h3'
      have hrr : ¬retry = retries := by omega
      have hstep : waitLoop f expected retries (n + 1) retry last
          = waitLoop f expected retries n (retry + 1) last := by
        simp [waitLoop, hfe, hexp, hrr]
      rw [hstep]
      exact ih (retry + 1) last (by omega) (by omega) (by omega)

theorem waitLoop_all_false (f : Nat → Bool) (retries : Nat)
    (hf : ∀ i, 1 ≤ i → i ≤ retries → f i = false) :
    ∀ fuel retry last, retry + fuel = retries + 1 → 1 ≤ retry → retry ≤ retries →
      waitLoop (fun i => .ret (f i)) (fun _ => false) retries fuel retry last = .val false := by
  intro fuel
  induction fuel with
  | zero => intro retry last h1 h2 h3; omega
  | succ n ih =>
    intro retry last h1 h2 h3
    have hfr : f retry = false := hf retry h2 h3
    have hstep : waitLoop (fun i => .ret (f i)) (fun _ => false) retries (n + 1) retry last
        = waitLoop (fun i => .ret (f i)) (fun _ => false) retries n (retry + 1) (some false) := by
      simp [waitLoop, hfr]
    rw [hstep]
    by_cases hr : retry = retries
    · have hn : n = 0 := by omega
      subst hn
      simp [waitLoop]
    · exact ih (retry + 1) (some false) (by omega) (by omega) (by omega)

/-! # Claim theorems -/

/-- C1 (amended).  The claim's first half holds: if `check_available`
raises temporary errors on the first `k` calls and returns `True` on call
`k + 1`, then `wait_until_available(retries)` returns `True` whenever
`retries > k`.  The second half is false as stated: when
`1 ≤ retries ≤ k`, `wait_for` re-raises the temporary exception of the
final attempt (`if retry == retries: raise`), and `wait_until_available`
only catches the *permanent* error classes, so the temporary exception
propagates to the caller instead of a falsy value being returned. -/
theorem C1_wait_until_available (f : Nat → CallRes) (isTemp isPerm : Exc → Bool) (k : Nat)
    (hraise : ∀ i, 1 ≤ i → i ≤ k → ∃ e, f i = .exc e ∧ isTemp e = true ∧ isPerm e = false)
    (hsucc : f (k + 1) = .ret true) :
    (∀ retries, k < retries → waitUntilAvailable f isTemp isPerm retries = .val true) ∧
    (∀ retries, 1 ≤ retries → retries ≤ k →
      ∃ e, f retries = .exc e ∧ isTemp e = true ∧
        waitUntilAvailable f isTemp isPerm retries = .raised e) := by
  constructor
  · intro retries hk
    have hloop := waitLoop_success f isTemp retries k
      (fun i h1 h2 => (hraise i h1 h2).imp fun e he => ⟨he.1, he.2.1⟩) hsucc hk
      retries 1 none (by omega) (by omega) (by omega)
    unfold waitUntilAvailable waitFor
    rw [hloop]
  · intro retries h1 hk
    have hesF : ∀ i, 1 ≤ i → i ≤ retries →
        f i = .exc (match f i with | .exc e => e | _ => .otherExc 0) ∧
        isTemp (match f i with | .exc e => e | _ => .otherExc 0) = true := by
      intro i hi1 hi2
      obtain ⟨e, hfe, ht, _⟩ := hraise i hi1 (le_trans hi2 hk)
      rw [hfe]
      exact ⟨rfl, ht⟩
    have hloop := waitLoop_all_raise f isTemp retries
      (fun i => match f i with | .exc e => e | _ => .otherExc 0) hesF
      retries 1 none (by omega) (by omega) (by omega)
    obtain ⟨e, hfe, ht, hp⟩ := hraise retries h1 hk
    refine ⟨e, hfe, ht, ?_⟩
    unfold waitUntilAvailable waitFor
    rw [hloop]
    simp [hfe, hp]

/-- C1, counterexample to the claim as stated: with a `check_available`
that raises the temporary `ProviderNotAvailable` on its single first call
(`k = 1`) and `retries = 1 ≤ k`, `wait_until_available` raises the
temporary exception rather than returning a falsy value. -/
theorem C1_counterexample :
    waitUntilAvailable c1exF defaultTempErrors defaultPermErrors 1
        = .raised .providerNotAvailableExc ∧
    ∀ b, waitUntilAvailable c1exF defaultTempErrors defaultPermErrors 1 ≠ .val b := by
  decide

/-- Witness for `C1_wait_until_available`: `k = 2` (two `socket.error`
raises, then `True`), evaluated at `retries = 3` and `retries = 2`. -/
theorem C1_wait_until_available_witness :
    waitUntilAvailable c1wF defaultTempErrors defaultPermErrors 3 = .val true ∧
    (∃ e, c1wF 2 = .exc e ∧ defaultTempErrors e = true ∧
      waitUntilAvailable c1wF defaultTempErrors defaultPermErrors 2 = .raised e) := by
  have h := C1_wait_until_available c1wF defaultTempErrors defaultPermErrors 2
    (by
      intro i h1 h2
      refine ⟨.socketError, ?_, by decide, by decide⟩
      have : i ≤ 2 := h2
      simp [c1wF, this])
    (by decide)
  exact ⟨h.1 3 (by omega), h.2 2 (by omega) (by omega)⟩

/-- C2: `cleanup()` is a no-op returning `False` unless the instance was
provided by the `container` provider; for a container-provided instance it
returns `True` and calls `destroy_container` exactly once with the
container's name when the container record is marked new, and zero times
when the container was reused. -/
theorem C2_cleanup (i : Inst) :
    (i.providedBy ≠ "container" → cleanupRun i = .ok (false, [])) ∧
    (∀ ci, i.providedBy = "container" → i.containerInfo = some ci → ci.new = true →
      cleanupRun i = .ok (true, [ci.name])) ∧
    (∀ ci, i.providedBy = "container" → i.containerInfo = some ci → ci.new = false →
      cleanupRun i = .ok (true, [])) := by
  refine ⟨fun h => ?_, fun ci h1 h2 h3 => ?_, fun ci h1 h2 h3 => ?_⟩ <;>
    simp [cleanupRun, *]

/-- Witness for `C2_cleanup`: a `localhost`-provided instance, a
container-provided instance with a newly created container, and one with a
reused container. -/
theorem C2_cleanup_witness :
    cleanupRun c2InstLocal = .ok (false, []) ∧
    cleanupRun c2InstNew = .ok (true, ["postgres__app"]) ∧
    cleanupRun c2InstOld = .ok (true, []) :=
  ⟨(C2_cleanup c2InstLocal).1 (by decide),
   (C2_cleanup c2InstNew).2.1 ⟨"postgres__app", true⟩ rfl rfl rfl,
   (C2_cleanup c2InstOld).2.2 ⟨"postgres__app", false⟩ rfl rfl rfl⟩

/-! # Helper lemmas: attribute dictionary and `_set_overrides` -/

theorem lookupA_setAttr_self (k v : String) (attrs : List (String × String)) :
    lookupA k (setAttr k v attrs) = some v := by
  induction attrs with
  | nil => simp [setAttr, lookupA]
  | cons p rest ih =>
    obtain ⟨k', v'⟩ := p
    by_cases h : k' = k
    · simp [setAttr, h, lookupA]
    · simp [setAttr, h, lookupA, ih]

theorem lookupA_setAttr_other (k k2 v : String) (attrs : List (String × String))
    (h : k ≠ k2) : lookupA k2 (setAttr k v attrs) = lookupA k2 attrs := by
  induction attrs with
  | nil => simp [setAttr, lookupA, h]
  | cons p rest ih =>
    obtain ⟨k', v'⟩ := p
    by_cases h2 : k' = k
    · subst h2
      simp [setAttr, lookupA, h]
    · simp [setAttr, h2, lookupA, ih]

theorem setOverrides_lookup_notMem (cls : String) (allowed : List String) (k : String) :
    ∀ (ovs : List (String × Option String)) (attrs attrs2 : List (String × String)),
      k ∉ ovs.map Prod.fst →
      setOverrides cls allowed attrs ovs = .ok attrs2 →
      lookupA k attrs2 = lookupA k attrs := by
  intro ovs
  induction ovs with
  | nil =>
    intro attrs attrs2 hmem hok
    simp [setOverrides] at hok
    rw [hok]
  | cons p rest ih =>
    intro attrs attrs2 hmem hok
    obtain ⟨k0, v0⟩ := p
    have hk0 : k ≠ k0 := by
      intro hc
      exact hmem (by simp [hc])
    have hmem' : k ∉ rest.map Prod.fst := by
      intro hc
      exact hmem (by simp [hc])
    match v0 with
    | none =>
      rw [show setOverrides cls allowed attrs ((k0, none) :: rest)
            = setOverrides cls allowed attrs rest from rfl] at hok
      exact ih attrs attrs2 hmem' hok
    | some w =>
      by_cases hall : k0 ∈ allowed
      · rw [show setOverrides cls allowed attrs ((k0, some w) :: rest)
              = if k0 ∈ allowed then setOverrides cls allowed (setAttr k0 w attrs) rest
                else .error (.improperlyConfigured (invalidParamMsg k0 cls)) from rfl,
            if_pos hall] at hok
        rw [ih (setAttr k0 w attrs) attrs2 hmem' hok]
        exact lookupA_setAttr_other k0 k w attrs (fun hc => hk0 hc.symm)
      · rw [show setOverrides cls allowed attrs ((k0, some w) :: rest)
              = if k0 ∈ allowed then setOverrides cls allowed (setAttr k0 w attrs) rest
                else .error (.improperlyConfigured (invalidParamMsg k0 cls)) from rfl,
            if_neg hall] at hok
        cases hok

theorem setOverrides_ok (cls : String) (allowed : List String) :
    ∀ (ovs : List (String × Option String)) (attrs : List (String × String)),
      (ovs.map Prod.fst).Nodup →
      (∀ k v, (k, some v) ∈ ovs → k ∈ allowed) →
      ∃ attrs2, setOverrides cls allowed attrs ovs = .ok attrs2 ∧
        (∀ k v, (k, some v) ∈ ovs → lookupA k attrs2 = some v) ∧
        (∀ k, (k, none) ∈ ovs → lookupA k attrs2 = lookupA k attrs) := by
  intro ovs
  induction ovs with
  | nil =>
    intro attrs _ _
    exact ⟨attrs, rfl, by simp, by simp⟩
  | cons p rest ih =>
    intro attrs hnd hall
    obtain ⟨k0, v0⟩ := p
    rw [List.map_cons] at hnd
    have hnotin : k0 ∉ rest.map Prod.fst := (List.nodup_cons.mp hnd).1
    have hnd' : (rest.map Prod.fst).Nodup := (List.nodup_cons.mp hnd).2
    match v0 with
    | none =>
      obtain ⟨attrs2, hok, hsome, hnone⟩ := ih attrs hnd'
        (fun k v hm => hall k v (List.mem_cons_of_mem _ hm))
      refine ⟨attrs2, hok, ?_, ?_⟩
      · intro k v hm
        rcases List.mem_cons.mp hm with hh | ht
        · cases hh
        · exact hsome k v ht
      · intro k hm
        rcases List.mem_cons.mp hm with hh | ht
        · have hk : k = k0 := by
            injection hh with h1 h2
          subst hk
          exact setOverrides_lookup_notMem cls allowed k rest attrs attrs2 hnotin hok
        · exact hnone k ht
    | some w =>
      have hmem : k0 ∈ allowed := hall k0 w (List.mem_cons_self _ _)
      obtain ⟨attrs2, hok, hsome, hnone⟩ := ih (setAttr k0 w attrs) hnd'
        (fun k v hm => hall k v (List.mem_cons_of_mem _ hm))
      refine ⟨attrs2, ?_, ?_, ?_⟩
      · rw [show setOverrides cls allowed attrs ((k0, some w) :: rest)
              = if k0 ∈ allowed then setOverrides cls allowed (setAttr k0 w attrs) rest
                else .error (.improperlyConfigured (invalidParamMsg k0 cls)) from rfl,
            if_pos hmem]
        exact hok
      · intro k v hm
        rcases List.mem_cons.mp hm with hh | ht
        · injection hh with h1 h2
          injection h2 with h2
          subst h1
          subst h2
          rw [setOverrides_lookup_notMem cls allowed _ rest _ attrs2 hnotin hok]
          exact lookupA_setAttr_self _ _ attrs
        · exact hsome k v ht
      · intro k hm
        rcases List.mem_cons.mp hm with hh | ht
        · cases hh
        · have hk : k ≠ k0 := by
            intro hc
            subst hc
            exact hnotin (by
              have : k = Prod.fst (k, (none : Option String)) := rfl
              exact List.mem_map_of_mem Prod.fst ht)
          rw [hnone k ht]
          exact lookupA_setAttr_other k0 k w attrs (fun hc => hk hc.symm)

theorem setOverrides_bad (cls : String) (allowed : List String) :
    ∀ (ovs : List (String × Option String)) (attrs : List (String × String)),
      (∃ k v, (k, some v) ∈ ovs ∧ k ∉ allowed) →
      ∃ k2 v2, (k2, some v2) ∈ ovs ∧ k2 ∉ allowed ∧
        setOverrides cls allowed attrs ovs =
          .error (.improperlyConfigured (invalidParamMsg k2 cls)) := by
  intro ovs
  induction ovs with
  | nil =>
    intro attrs hbad
    obtain ⟨k, v, hm, _⟩ := hbad
    cases hm
  | cons p rest ih =>
    intro attrs hbad
    obtain ⟨k0, v0⟩ := p
    match v0 with
    | none =>
      have hbad' : ∃ k v, (k, some v) ∈ rest ∧ k ∉ allowed := by
        obtain ⟨k, v, hm, hna⟩ := hbad
        rcases List.mem_cons.mp hm with hh | ht
        · cases hh
        · exact ⟨k, v, ht, hna⟩
      obtain ⟨k2, v2, hm2, hna2, heq⟩ := ih attrs hbad'
      exact ⟨k2, v2, List.mem_cons_of_mem _ hm2, hna2, heq⟩
    | some w =>
      by_cases hmem : k0 ∈ allowed
      · have hbad' : ∃ k v, (k, some v) ∈ rest ∧ k ∉ allowed := by
          obtain ⟨k, v, hm, hna⟩ := hbad
          rcases List.mem_cons.mp hm with hh | ht
          · injection hh with h1 h2
            subst h1
            exact absurd hmem hna
          · exact ⟨k, v, ht, hna⟩
        obtain ⟨k2, v2, hm2, hna2, heq⟩ := ih (setAttr k0 w attrs) hbad'
        refine ⟨k2, v2, List.mem_cons_of_mem _ hm2, hna2, ?_⟩
        rw [show setOverrides cls allowed attrs ((k0, some w) :: rest)
              = if k0 ∈ allowed then setOverrides cls allowed (setAttr k0 w attrs) rest
                else .error (.improperlyConfigured (invalidParamMsg k0 cls)) from rfl,
            if_pos hmem]
        exact heq
      · refine ⟨k0, w, List.mem_cons_self _ _, hmem, ?_⟩
        rw [show setOverrides cls allowed attrs ((k0, some w) :: rest)
              = if k0 ∈ allowed then setOverrides cls allowed (setAttr k0 w attrs) rest
                else .error (.improperlyConfigured (invalidParamMsg k0 cls)) from rfl,
            if_neg hmem]

theorem setOverrides_error_shape (cls : String) (allowed : List String) :
    ∀ (ovs : List (String × Option String)) (attrs : List (String × String)) (e : Exc),
      setOverrides cls allowed attrs ovs = .error e →
      ∃ m, e = .improperlyConfigured m := by
  intro ovs
  induction ovs with
  | nil =>
    intro attrs e he
    cases he
  | cons p rest ih =>
    intro attrs e he
    obtain ⟨k0, v0⟩ := p
    match v0 with
    | none => exact ih attrs e he
    | some w =>
      by_cases hmem : k0 ∈ allowed
      · rw [show setOverrides cls allowed attrs ((k0, some w) :: rest)
              = if k0 ∈ allowed then setOverrides cls allowed (setAttr k0 w attrs) rest
                else .error (.improperlyConfigured (invalidParamMsg k0 cls)) from rfl,
            if_pos hmem] at he
        exact ih (setAttr k0 w attrs) e he
      · rw [show setOverrides cls allowed attrs ((k0, some w) :: rest)
              = if k0 ∈ allowed then setOverrides cls allowed (setAttr k0 w attrs) rest
                else .error (.improperlyConfigured (invalidParamMsg k0 cls)) from rfl,
            if_neg hmem] at he
        injection he with he
        exact ⟨invalidParamMsg k0 cls, he.symm⟩

/-- C4: applying overrides sets every non-`None` allowed key on the
instance (`allowed` models `allow_override + allow_override_list`), raises
`ImproperlyConfigured` naming an offending key and the service class
whenever some non-`None` key is not allowed (never silently ignoring it),
and leaves attributes of `None`-valued pairs unchanged.  The keys of
`vars(overrides)` are those of a Python dictionary, hence distinct
(`hnd`). -/
theorem C4_set_overrides (cls : String) (allowed : List String)
    (attrs : List (String × String)) (ovs : List (String × Option String))
    (hnd : (ovs.map Prod.fst).Nodup) :
    ((∀ k v, (k, some v) ∈ ovs → k ∈ allowed) →
      ∃ attrs2, setOverrides cls allowed attrs ovs = .ok attrs2 ∧
        (∀ k v, (k, some v) ∈ ovs → lookupA k attrs2 = some v) ∧
        (∀ k, (k, none) ∈ ovs → lookupA k attrs2 = lookupA k attrs)) ∧
    ((∃ k v, (k, some v) ∈ ovs ∧ k ∉ allowed) →
      ∃ k2 v2, (k2, some v2) ∈ ovs ∧ k2 ∉ allowed ∧
        setOverrides cls allowed attrs ovs =
          .error (.improperlyConfigured (invalidParamMsg k2 cls))) :=
  ⟨fun hall => setOverrides_ok cls allowed ovs attrs hnd hall,
   fun hbad => setOverrides_bad cls allowed ovs attrs hbad⟩

/-- Witness for `C4_set_overrides`: an allowed override plus a `None`
override applied to a `PostgreSQL` service, and a misspelled override key
rejected with the expected message. -/
theorem C4_set_overrides_witness :
    (∃ attrs2, setOverrides "PostgreSQL" ["host", "port"] [("host", "old")]
        [("host", some "db.example"), ("port", none)] = .ok attrs2 ∧
      (∀ k v, (k, some v) ∈ [("host", some "db.example"), ("port", none)] →
        lookupA k attrs2 = some v) ∧
      (∀ k, (k, none) ∈ [("host", some "db.example"), ("port", none)] →
        lookupA k attrs2 = lookupA k [("host", "old")])) ∧
    (∃ k2 v2, (k2, some v2) ∈ [("hoast", some "x")] ∧ k2 ∉ ["host", "port"] ∧
      setOverrides "PostgreSQL" ["host", "port"] [] [("hoast", some "x")] =
        .error (.improperlyConfigured (invalidParamMsg k2 "PostgreSQL"))) := by
  constructor
  · refine (C4_set_overrides "PostgreSQL" ["host", "port"] [("host", "old")]
      [("host", some "db.example"), ("port", none)] (by decide)).1 ?_
    intro k v hm
    rcases List.mem_cons.mp hm with hh | hm2
    · injection hh with h1 h2
      subst h1
      decide
    · rcases List.mem_cons.mp hm2 with hh | hm3
      · injection hh with h1 h2
        exact Option.noConfusion h2
      · cases hm3
  · exact (C4_set_overrides "PostgreSQL" ["host", "port"] [] [("hoast", some "x")]
      (by decide)).2 ⟨"hoast", "x", by decide, by decide⟩

/-- C3: with `transient=True`, `provide` never invokes a provider factory
lacking the `transient` marker and never returns an instance produced by
one, regardless of where unmarked providers sit in the provider list. -/
theorem C3_transient_skips_unmarked (cls : String) (isTemp isPerm : Exc → Bool)
    (allowed : List String) (ovs : List (String × Option String)) :
    ∀ ps : List Provider,
      (∀ n, n ∈ (provideGo cls isTemp isPerm allowed ovs true ps).invoked →
        ∃ p, p ∈ ps ∧ p.pname = n ∧ p.transientFlag = true) ∧
      (∀ i, (provideGo cls isTemp isPerm allowed ovs true ps).outcome = .ok i →
        ∃ p, p ∈ ps ∧ p.transientFlag = true ∧ i.providedBy = p.pname) := by
  intro ps
  induction ps with
  | nil =>
    constructor
    · intro n hn
      simp [provideGo] at hn
    · intro i hi
      simp [provideGo] at hi
  | cons p rest ih =>
    rcases hflag : p.transientFlag with _ | _
    · have hskip : provideGo cls isTemp isPerm allowed ovs true (p :: rest)
          = provideGo cls isTemp isPerm allowed ovs true rest := by
        simp [provideGo, hflag]
      rw [hskip]
      refine ⟨fun n hn => ?_, fun i hi => ?_⟩
      · obtain ⟨q, hq1, hq2⟩ := ih.1 n hn
        exact ⟨q, List.mem_cons_of_mem _ hq1, hq2⟩
      · obtain ⟨q, hq1, hq2⟩ := ih.2 i hi
        exact ⟨q, List.mem_cons_of_mem _ hq1, hq2⟩
    · rcases hrun : p.run with e | sv0
      · rcases hpna : isPNA e with _ | _
        · have hred : provideGo cls isTemp isPerm allowed ovs true (p :: rest)
              = ⟨.error e, [p.pname], []⟩ := by
            simp [provideGo, hflag, hrun, hpna]
          rw [hred]
          refine ⟨fun n hn => ?_, fun i hi => ?_⟩
          · have : n = p.pname := by
              simpa using hn
            exact ⟨p, List.mem_cons_self _ _, this.symm, hflag⟩
          · cases hi
        · have hred : provideGo cls isTemp isPerm allowed ovs true (p :: rest)
              = ⟨(provideGo cls isTemp isPerm allowed ovs true rest).outcome,
                 p.pname :: (provideGo cls isTemp isPerm allowed ovs true rest).invoked,
                 (provideGo cls isTemp isPerm allowed ovs true rest).cleanupCalls⟩ := by
            simp [provideGo, hflag, hrun, hpna]
          rw [hred]
          refine ⟨fun n hn => ?_, fun i hi => ?_⟩
          · rcases List.mem_cons.mp hn with hh | ht
            · exact ⟨p, List.mem_cons_self _ _, hh.symm, hflag⟩
            · obtain ⟨q, hq1, hq2⟩ := ih.1 n ht
              exact ⟨q, List.mem_cons_of_mem _ hq1, hq2⟩
          · obtain ⟨q, hq1, hq2⟩ := ih.2 i hi
            exact ⟨q, List.mem_cons_of_mem _ hq1, hq2⟩
      · rcases hso : setOverrides cls allowed sv0.attrs ovs with e2 | attrs2
        · have hred : provideGo cls isTemp isPerm allowed ovs true (p :: rest)
              = ⟨.error e2, [p.pname], []⟩ := by
            simp [provideGo, hflag, hrun, hso]
          rw [hred]
          refine ⟨fun n hn => ?_, fun i hi => ?_⟩
          · have : n = p.pname := by
              simpa using hn
            exact ⟨p, List.mem_cons_self _ _, this.symm, hflag⟩
          · cases hi
        · rcases hav : availableRes isTemp isPerm
              { sv0 with providedBy := p.pname, attrs := attrs2 } with b | e3
          · rcases b with _ | _
            · have hred : provideGo cls isTemp isPerm allowed ovs true (p :: rest)
                  = ⟨(provideGo cls isTemp isPerm allowed ovs true rest).outcome,
                     p.pname :: (provideGo cls isTemp isPerm allowed ovs true rest).invoked,
                     (provideGo cls isTemp isPerm allowed ovs true rest).cleanupCalls⟩ := by
                simp [provideGo, hflag, hrun, hso, hav]
              rw [hred]
              refine ⟨fun n hn => ?_, fun i hi => ?_⟩
              · rcases List.mem_cons.mp hn with hh | ht
                · exact ⟨p, List.mem_cons_self _ _, hh.symm, hflag⟩
                · obtain ⟨q, hq1, hq2⟩ := ih.1 n ht
                  exact ⟨q, List.mem_cons_of_mem _ hq1, hq2⟩
              · obtain ⟨q, hq1, hq2⟩ := ih.2 i hi
                exact ⟨q, List.mem_cons_of_mem _ hq1, hq2⟩
            · have hred : provideGo cls isTemp isPerm allowed ovs true (p :: rest)
                  = ⟨.ok { sv0 with providedBy := p.pname, attrs := attrs2 },
                     [p.pname], []⟩ := by
                simp [provideGo, hflag, hrun, hso, hav]
              rw [hred]
              refine ⟨fun n hn => ?_, fun i hi => ?_⟩
              · have : n = p.pname := by
                  simpa using hn
                exact ⟨p, List.mem_cons_self _ _, this.symm, hflag⟩
              · injection hi with hi
                exact ⟨p, List.mem_cons_self _ _, hflag, by rw [← hi]⟩
          · rcases hcl : cleanupRun { sv0 with providedBy := p.pname, attrs := attrs2 }
                with e4 | r4
            · have hred : provideGo cls isTemp isPerm allowed ovs true (p :: rest)
                  = ⟨.error e4, [p.pname],
                     [Inst.tag { sv0 with providedBy := p.pname, attrs := attrs2 }]⟩ := by
                simp [provideGo, hflag, hrun, hso, hav, hcl]
              rw [hred]
              refine ⟨fun n hn => ?_, fun i hi => ?_⟩
              · have : n = p.pname := by
                  simpa using hn
                exact ⟨p, List.mem_cons_self _ _, this.symm, hflag⟩
              · cases hi
            · have hred : provideGo cls isTemp isPerm allowed ovs true (p :: rest)
                  = ⟨.error e3, [p.pname],
                     [Inst.tag { sv0 with providedBy := p.pname, attrs := attrs2 }]⟩ := by
                simp [provideGo, hflag, hrun, hso, hav, hcl]
              rw [hred]
              refine ⟨fun n hn => ?_, fun i hi => ?_⟩
              · have : n = p.pname := by
                  simpa using hn
                exact ⟨p, List.mem_cons_self _ _, this.symm, hflag⟩
              · cases hi

/-- Witness for `C3_transient_skips_unmarked`: on `c3Ps` with
`transient=True`, the invoked provider `container` is transient-marked, and
the returned instance was produced by a transient-marked provider. -/
theorem C3_transient_skips_unmarked_witness :
    (∃ p, p ∈ c3Ps ∧ p.pname = "container" ∧ p.transientFlag = true) ∧
    (∃ p, p ∈ c3Ps ∧ p.transientFlag = true ∧
      Inst.providedBy { tag := "inst-cont", checkAvail := .val true,
                        providedBy := "container" } = p.pname) := by
  have h := C3_transient_skips_unmarked "Redis" defaultTempErrors defaultPermErrors [] [] c3Ps
  exact ⟨h.1 "container" (by decide),
         h.2 { tag := "inst-cont", checkAvail := .val true, providedBy := "container" }
           (by decide)⟩

/-- C6: when every provider factory raises `ProviderNotAvailable`, each one
is caught inside `provide` (never escaping to the caller), and after the
list is exhausted `provide` raises `ImproperlyConfigured` whose message
contains the service class name. -/
theorem C6_all_providers_unavailable (cls : String) (isTemp isPerm : Exc → Bool)
    (allowed : List String) (ovs : List (String × Option String)) (tq : Bool) :
    ∀ ps : List Provider, (∀ p, p ∈ ps → ∃ e, p.run = .error e ∧ isPNA e = true) →
      (provideGo cls isTemp isPerm allowed ovs tq ps).outcome =
        .error (.improperlyConfigured (noProvidersMsg cls)) ∧
      (∃ pre post, noProvidersMsg cls = pre ++ cls ++ post) ∧
      (∀ e, (provideGo cls isTemp isPerm allowed ovs tq ps).outcome = .error e →
        isPNA e = false) := by
  intro ps
  induction ps with
  | nil =>
    intro _
    refine ⟨rfl, ⟨"No available providers for service ", ".", rfl⟩, ?_⟩
    intro e he
    have h2 : Exc.improperlyConfigured (noProvidersMsg cls) = e := by
      injection he
    rw [← h2]
    rfl
  | cons p rest ih =>
    intro hall
    obtain ⟨e0, hrun, hpna⟩ := hall p (List.mem_cons_self _ _)
    have ihr := ih fun q hq => hall q (List.mem_cons_of_mem _ hq)
    by_cases hskip : tq = true ∧ p.transientFlag = false
    · have hred : provideGo cls isTemp isPerm allowed ovs tq (p :: rest)
          = provideGo cls isTemp isPerm allowed ovs tq rest := by
        simp [provideGo, hskip]
      rw [hred]
      exact ihr
    · have hred : (provideGo cls isTemp isPerm allowed ovs tq (p :: rest)).outcome
          = (provideGo cls isTemp isPerm allowed ovs tq rest).outcome := by
        simp [provideGo, hskip, hrun, hpna]
      refine ⟨by rw [hred]; exact ihr.1, ihr.2.1, ?_⟩
      intro e he
      rw [hred] at he
      exact ihr.2.2 e he

/-- Witness for `C6_all_providers_unavailable` on the two-provider list
`c6Ps` for a service class named `Redis`. -/
theorem C6_all_providers_unavailable_witness :
    (provideGo "Redis" defaultTempErrors defaultPermErrors [] [] false c6Ps).outcome =
      .error (.improperlyConfigured (noProvidersMsg "Redis")) ∧
    (∃ pre post, noProvidersMsg "Redis" = pre ++ "Redis" ++ post) ∧
    (∀ e, (provideGo "Redis" defaultTempErrors defaultPermErrors [] [] false c6Ps).outcome
        = .error e → isPNA e = false) := by
  refine C6_all_providers_unavailable "Redis" defaultTempErrors defaultPermErrors
    [] [] false c6Ps ?_
  intro p hp
  rcases List.mem_cons.mp hp with hh | hm
  · subst hh
    exact ⟨.providerNotAvailableExc, rfl, rfl⟩
  · rcases List.mem_cons.mp hm with hh | hm2
    · subst hh
      exact ⟨.dockerImageRequired "redis", rfl, rfl⟩
    · cases hm2

/-- C10: override application runs outside the exception handler guarding
the availability check.  If, after all earlier providers were skipped or
raised `ProviderNotAvailable`, a provider's factory returns an instance and
`_set_overrides` then raises `ImproperlyConfigured`, that exception
propagates out of `provide` and `cleanup()` is never invoked on the
instance (so a freshly created container is not destroyed on this path). -/
theorem C10_override_error_skips_cleanup (cls : String) (isTemp isPerm : Exc → Bool)
    (allowed : List String) (ovs : List (String × Option String)) (tq : Bool)
    (p : Provider) (sv0 : Inst) (e0 : Exc) :
    ∀ pre : List Provider,
      (∀ q, q ∈ pre →
        (tq = true ∧ q.transientFlag = false) ∨ ∃ e, q.run = .error e ∧ isPNA e = true) →
      ¬(tq = true ∧ p.transientFlag = false) →
      p.run = .ok sv0 →
      setOverrides cls allowed sv0.attrs ovs = .error e0 →
      ∀ rest : List Provider,
        (provideGo cls isTemp isPerm allowed ovs tq (pre ++ p :: rest)).outcome = .error e0 ∧
        (provideGo cls isTemp isPerm allowed ovs tq (pre ++ p :: rest)).cleanupCalls = [] ∧
        ∃ m, e0 = .improperlyConfigured m := by
  intro pre
  induction pre with
  | nil =>
    intro _ hns hrun hset rest
    have hshape := setOverrides_error_shape cls allowed ovs sv0.attrs e0 hset
    have hred : provideGo cls isTemp isPerm allowed ovs tq ([] ++ p :: rest)
        = ⟨.error e0, [p.pname], []⟩ := by
      simp [provideGo, hns, hrun, hset]
    rw [hred]
    exact ⟨rfl, rfl, hshape⟩
  | cons q pre' ih =>
    intro hall hns hrun hset rest
    have ihr := ih (fun r hr => hall r (List.mem_cons_of_mem _ hr)) hns hrun hset rest
    rcases hall q (List.mem_cons_self _ _) with hskip | ⟨e, hqrun, hqpna⟩
    · have hred : provideGo cls isTemp isPerm allowed ovs tq ((q :: pre') ++ p :: rest)
          = provideGo cls isTemp isPerm allowed ovs tq (pre' ++ p :: rest) := by
        simp [provideGo, hskip]
      rw [hred]
      exact ihr
    · by_cases hskip : tq = true ∧ q.transientFlag = false
      · have hred : provideGo cls isTemp isPerm allowed ovs tq ((q :: pre') ++ p :: rest)
            = provideGo cls isTemp isPerm allowed ovs tq (pre' ++ p :: rest) := by
          simp [provideGo, hskip]
        rw [hred]
        exact ihr
      · have hred1 : (provideGo cls isTemp isPerm allowed ovs tq ((q :: pre') ++ p :: rest)).outcome
            = (provideGo cls isTemp isPerm allowed ovs tq (pre' ++ p :: rest)).outcome := by
          simp [provideGo, hskip, hqrun, hqpna]
        have hred2 : (provideGo cls isTemp isPerm allowed ovs tq ((q :: pre') ++ p :: rest)).cleanupCalls
            = (provideGo cls isTemp isPerm allowed ovs tq (pre' ++ p :: rest)).cleanupCalls := by
          simp [provideGo, hskip, hqrun, hqpna]
        exact ⟨by rw [hred1]; exact ihr.1, by rw [hred2]; exact ihr.2.1, ihr.2.2⟩

/-- Witness for `C10_override_error_skips_cleanup`: a `PostgreSQL` service
whose `localhost` provider raises `ProviderNotAvailable`, whose `container`
provider returns an instance with a freshly created container, and whose
overrides contain the misspelled key `hoast`. -/
theorem C10_override_error_skips_cleanup_witness :
    (provideGo "PostgreSQL" defaultTempErrors defaultPermErrors ["host"]
        [("hoast", some "x")] false (c10Pre ++ c10P :: [])).outcome =
      .error (.improperlyConfigured (invalidParamMsg "hoast" "PostgreSQL")) ∧
    (provideGo "PostgreSQL" defaultTempErrors defaultPermErrors ["host"]
        [("hoast", some "x")] false (c10Pre ++ c10P :: [])).cleanupCalls = [] ∧
    ∃ m, Exc.improperlyConfigured (invalidParamMsg "hoast" "PostgreSQL")
      = .improperlyConfigured m := by
  refine C10_override_error_skips_cleanup "PostgreSQL" defaultTempErrors defaultPermErrors
    ["host"] [("hoast", some "x")] false c10P c10Inst
    (.improperlyConfigured (invalidParamMsg "hoast" "PostgreSQL")) c10Pre ?_ (by decide)
    rfl (by decide) []
  intro q hq
  rcases List.mem_cons.mp hq with hh | hm
  · subst hh
    exact Or.inr ⟨.providerNotAvailableExc, rfl, rfl⟩
  · cases hm

/-- Helper: with every poll failing, `_wait_for_port` raises
`ContainerRefusingConnection(image, port)`. -/
theorem waitForPort_fails (image hp : String) (f : Nat → Bool)
    (hf : ∀ i, 1 ≤ i → i ≤ 30 → f i = false) :
    waitForPort image hp f 30 = .error (.containerRefusing image hp) := by
  unfold waitForPort waitFor
  rw [waitLoop_all_false f 30 hf 30 1 none (by omega) (by omega) (by omega)]

/-- C5: if the forwarded port never opens during the 30 poll attempts, then
when this call created the container, `destroy_container` runs on the
container's name before the `ContainerRefusingConnection` error propagates;
when the container already existed, the error propagates with no
destruction. -/
theorem C5_port_failure_cleanup (image : String) (port : Nat) (appId : String)
    (dataDir : Option String) (env : DockerEnv)
    (hports : ∀ i, 1 ≤ i → i ≤ 30 → env.portOpen i = false) :
    (env.containerExists = false → env.imageExists = true →
      ensureContainer image port appId dataDir env =
        ⟨.error (.containerRefusing image env.hostPort),
         [containerNameFor image appId], [containerNameFor image appId]⟩) ∧
    (env.containerExists = true →
      ensureContainer image port appId dataDir env =
        ⟨.error (.containerRefusing image env.hostPort), [],
         if env.runningState = false then [containerNameFor image appId] else []⟩) := by
  have hw := waitForPort_fails image env.hostPort env.portOpen hports
  constructor
  · intro h1 h2
    unfold ensureContainer getOrCreateContainer
    simp [h1, h2, hw]
  · intro h1
    unfold ensureContainer getOrCreateContainer
    simp [h1, hw]

/-- Witness for `C5_port_failure_cleanup` on `c5Env` (created container:
destroyed) and `c5EnvReuse` (pre-existing container: not destroyed). -/
theorem C5_port_failure_cleanup_witness :
    ensureContainer "library/redis" 6379 "app1" none c5Env =
      ⟨.error (.containerRefusing "library/redis" "49153"),
       [containerNameFor "library/redis" "app1"],
       [containerNameFor "library/redis" "app1"]⟩ ∧
    ensureContainer "library/redis" 6379 "app1" none c5EnvReuse =
      ⟨.error (.containerRefusing "library/redis" "49153"), [],
       [containerNameFor "library/redis" "app1"]⟩ := by
  constructor
  · exact (C5_port_failure_cleanup "library/redis" 6379 "app1" none c5Env
      (fun i h1 h2 => rfl)).1 rfl rfl
  · have h := (C5_port_failure_cleanup "library/redis" 6379 "app1" none c5EnvReuse
      (fun i h1 h2 => rfl)).2 rfl
    simpa using h

/-! # Helper lemmas: string primitives -/

theorem hasChar_iff (c : Char) (s : PyStr) : hasChar c s = true ↔ c ∈ s := by
  induction s with
  | nil => simp [hasChar]
  | cons d rest ih =>
    by_cases h : d = c
    · subst h
      simp [hasChar]
    · rw [show hasChar c (d :: rest) = hasChar c rest from by simp [hasChar, h]]
      rw [ih]
      constructor
      · exact fun hm => List.mem_cons_of_mem _ hm
      · intro hm
        rcases List.mem_cons.mp hm with he | hm2
        · exact absurd he.symm h
        · exact hm2

theorem hasChar_false (c : Char) (s : PyStr) (h : ∀ x ∈ s, x ≠ c) :
    hasChar c s = false := by
  cases hc : hasChar c s
  · rfl
  · exact absurd rfl (h c ((hasChar_iff c s).mp hc))

theorem hasChar_append (c : Char) (xs ys : PyStr) :
    hasChar c (xs ++ ys) = (hasChar c xs || hasChar c ys) := by
  induction xs with
  | nil => simp [hasChar]
  | cons d rest ih =>
    by_cases h : d = c <;> simp [hasChar, h, ih]

theorem pyFindChar_append (c : Char) (xs ys : PyStr) (h : ∀ x ∈ xs, x ≠ c) :
    pyFindChar c (xs ++ c :: ys) = some xs.length := by
  induction xs with
  | nil => simp [pyFindChar]
  | cons d rest ih =>
    have hd : d ≠ c := h d (List.mem_cons_self _ _)
    simp [pyFindChar, hd, ih (fun x hx => h x (List.mem_cons_of_mem _ hx))]

theorem splitOnce_append (c : Char) (xs ys : PyStr) (h : ∀ x ∈ xs, x ≠ c) :
    splitOnce c (xs ++ c :: ys) = (xs, ys) := by
  induction xs with
  | nil => simp [splitOnce]
  | cons d rest ih =>
    have hd : d ≠ c := h d (List.mem_cons_self _ _)
    simp [splitOnce, hd, ih (fun x hx => h x (List.mem_cons_of_mem _ hx))]

theorem splitAllChar_no (c : Char) (s : PyStr) (h : ∀ x ∈ s, x ≠ c) :
    splitAllChar c s = [s] := by
  induction s with
  | nil => simp [splitAllChar]
  | cons d rest ih =>
    have hd : d ≠ c := h d (List.mem_cons_self _ _)
    simp [splitAllChar, hd, ih (fun x hx => h x (List.mem_cons_of_mem _ hx))]

theorem splitAllChar_cons_split (c : Char) (xs rest : PyStr) (h : ∀ x ∈ xs, x ≠ c) :
    splitAllChar c (xs ++ c :: rest) = xs :: splitAllChar c rest := by
  induction xs with
  | nil => simp [splitAllChar]
  | cons d xs2 ih =>
    have hd : d ≠ c := h d (List.mem_cons_self _ _)
    simp [splitAllChar, hd, ih (fun x hx => h x (List.mem_cons_of_mem _ hx))]

theorem joinChar_cons_cons (c : Char) (a b : PyStr) (ts : List PyStr) :
    joinChar c (a :: b :: ts) = a ++ c :: joinChar c (b :: ts) := rfl

theorem splitAllChar_joinChar (c : Char) :
    ∀ L : List PyStr, L ≠ [] → (∀ l ∈ L, ∀ x ∈ l, x ≠ c) →
      splitAllChar c (joinChar c L) = L := by
  intro L
  induction L with
  | nil => intro h _; exact absurd rfl h
  | cons l L2 ih =>
    intro _ hall
    cases L2 with
    | nil => exact splitAllChar_no c l (hall l (List.mem_cons_self _ _))
    | cons t ts =>
      rw [joinChar_cons_cons,
          splitAllChar_cons_split c l _ (hall l (List.mem_cons_self _ _)),
          ih (by simp) (fun m hm => hall m (List.mem_cons_of_mem _ hm))]

theorem hasChar_joinChar_two (c : Char) (a b : PyStr) (ts : List PyStr) :
    hasChar c (joinChar c (a :: b :: ts)) = true := by
  rw [joinChar_cons_cons, hasChar_append]
  simp [hasChar]

theorem takeWhile_append_stop (P : Char → Bool) (xs ys : PyStr)
    (hall : ∀ x ∈ xs, P x = true)
    (hstop : match ys with | [] => True | y :: _ => P y = false) :
    (xs ++ ys).takeWhile P = xs ∧ (xs ++ ys).dropWhile P = ys := by
  induction xs with
  | nil =>
    cases ys with
    | nil => simp
    | cons y ys2 =>
      simp only [List.nil_append]
      have hy : P y = false := hstop
      have hy2 : ¬P y = true := by simp [hy]
      exact ⟨List.takeWhile_cons_of_neg hy2, List.dropWhile_cons_of_neg hy2⟩
  | cons d rest ih =>
    have hd : P d = true := hall d (List.mem_cons_self _ _)
    obtain ⟨h1, h2⟩ := ih (fun x hx => hall x (List.mem_cons_of_mem _ hx))
    constructor
    · rw [List.cons_append, List.takeWhile_cons_of_pos hd, h1]
    · rw [List.cons_append, List.dropWhile_cons_of_pos hd, h2]

theorem pyLowerStr_id (s : PyStr) (h : ∀ c ∈ s, pyLower c = c) : pyLowerStr s = s := by
  induction s with
  | nil => rfl
  | cons d rest ih =>
    rw [show pyLowerStr (d :: rest) = pyLower d :: pyLowerStr rest from rfl,
        h d (List.mem_cons_self _ _),
        ih (fun c hc => h c (List.mem_cons_of_mem _ hc))]

theorem schemeChar_ne (c : Char) (h : hasChar c schemeCharsList = true) :
    c ≠ ':' ∧ c ≠ '|' ∧ c ≠ '/' := by
  have hm : c ∈ schemeCharsList := (hasChar_iff c schemeCharsList).mp h
  have hall : ∀ x ∈ schemeCharsList, x ≠ ':' ∧ x ≠ '|' ∧ x ≠ '/' := by decide
  exact hall c hm

/-! # Helper lemmas: decimal digits -/

theorem natOfDigits_append_one (xs : PyStr) (d : Char) :
    natOfDigits (xs ++ [d]) = 10 * natOfDigits xs + (d.toNat - 48) := by
  unfold natOfDigits
  rw [List.foldl_append]
  simp [List.foldl]
  ring

theorem digitChar_toNat (m : Nat) (h : m < 10) : (digitChar m).toNat = 48 + m := by
  interval_cases m <;> decide

theorem digitChar_isDigit (m : Nat) (h : m < 10) : (digitChar m).isDigit = true := by
  interval_cases m <;> decide

theorem natOfDigits_natDigitsRev : ∀ n : Nat, natOfDigits (natDigitsRev n).reverse = n := by
  intro n
  induction n using Nat.strong_induction_on with
  | _ n ih =>
    match n with
    | 0 => simp [natDigitsRev, natOfDigits]
    | m + 1 =>
      rw [show natDigitsRev (m + 1)
            = digitChar ((m + 1) % 10) :: natDigitsRev ((m + 1) / 10) from by
          simp [natDigitsRev]]
      rw [List.reverse_cons, natOfDigits_append_one,
          ih ((m + 1) / 10) (Nat.div_lt_self (Nat.succ_pos m) (by norm_num)),
          digitChar_toNat _ (Nat.mod_lt _ (by norm_num))]
      omega

theorem natDigitsRev_ne_nil (n : Nat) (h : n ≠ 0) : natDigitsRev n ≠ [] := by
  match n with
  | 0 => exact absurd rfl h
  | m + 1 => simp [natDigitsRev]

theorem natDigitsRev_digits : ∀ n : Nat, ∀ c ∈ natDigitsRev n, c.isDigit = true := by
  intro n
  induction n using Nat.strong_induction_on with
  | _ n ih =>
    match n with
    | 0 => intro c hc; simp [natDigitsRev] at hc
    | m + 1 =>
      intro c hc
      rw [show natDigitsRev (m + 1)
            = digitChar ((m + 1) % 10) :: natDigitsRev ((m + 1) / 10) from by
          simp [natDigitsRev]] at hc
      rcases List.mem_cons.mp hc with hh | ht
      · subst hh
        exact digitChar_isDigit _ (Nat.mod_lt _ (by norm_num))
      · exact ih ((m + 1) / 10) (Nat.div_lt_self (Nat.succ_pos m) (by norm_num)) c ht

theorem natOfDigits_natDigits (n : Nat) : natOfDigits (natDigits n) = n := by
  unfold natDigits
  by_cases h : n = 0
  · subst h
    decide
  · rw [if_neg h]
    exact natOfDigits_natDigitsRev n

theorem natDigits_ne_nil (n : Nat) : natDigits n ≠ [] := by
  unfold natDigits
  by_cases h : n = 0
  · simp [h]
  · rw [if_neg h, ne_eq, List.reverse_eq_nil_iff]
    exact natDigitsRev_ne_nil n h

theorem natDigits_digits (n : Nat) : ∀ c ∈ natDigits n, c.isDigit = true := by
  unfold natDigits
  by_cases h : n = 0
  · subst h
    intro c hc
    simp at hc
    subst hc
    decide
  · rw [if_neg h]
    intro c hc
    exact natDigitsRev_digits n c (List.mem_reverse.mp hc)

/-! # Helper lemmas: the `urlsplit` round trip -/

theorem take_len_append (xs ys : PyStr) : (xs ++ ys).take xs.length = xs := by
  induction xs with
  | nil => simp
  | cons d rest ih => simp [ih]

theorem drop_len_succ_append (xs : PyStr) (c : Char) (ys : PyStr) :
    (xs ++ c :: ys).drop (xs.length + 1) = ys := by
  induction xs with
  | nil => simp
  | cons d rest ih => simp [ih]

theorem buildURL_normal (p : URLParts) :
    buildURL p = p.scheme ++ ':' :: '/' :: '/' ::
      (p.netloc ++ (p.path ++ (optPrefixed '?' p.query ++ optPrefixed '#' p.fragment))) := by
  unfold buildURL
  simp [List.append_assoc]

theorem pathShapeOK_shape (pa : PyStr) (h : pathShapeOK pa) :
    pa = [] ∨ ∃ t, pa = '/' :: t := by
  cases pa with
  | nil => exact Or.inl rfl
  | cons c t =>
    have hc : c = '/' := h
    subst hc
    exact Or.inr ⟨t, rfl⟩

theorem urlsplit_scheme (scheme rest : PyStr) (h1 : scheme ≠ [])
    (h2 : ∀ c ∈ scheme, schemeCharOK c) (t : PyStr) (ht : rest = '/' :: t) :
    urlsplit (scheme ++ ':' :: rest) = urlsplitTail scheme rest := by
  have hnc : ∀ x ∈ scheme, x ≠ ':' := fun x hx => (schemeChar_ne x (h2 x hx).1).1
  have hfind : pyFindChar ':' (scheme ++ ':' :: rest) = some scheme.length :=
    pyFindChar_append ':' scheme rest hnc
  have hlow : pyLowerStr scheme = scheme := pyLowerStr_id scheme fun c hc => (h2 c hc).2
  have hpos : 0 < scheme.length := List.length_pos.mpr h1
  have htake : (scheme ++ ':' :: rest).take scheme.length = scheme := by
    have := take_len_append scheme (':' :: rest)
    exact this
  have hdrop : (scheme ++ ':' :: rest).drop (scheme.length + 1) = rest :=
    drop_len_succ_append scheme ':' rest
  have hall : allSchemeChars scheme = true := by
    unfold allSchemeChars
    rw [List.all_eq_true]
    exact fun c hc => (h2 c hc).1
  have hany : rest.any (fun c => !c.isDigit) = true := by
    subst ht
    simp
  unfold urlsplit
  rw [hfind]
  by_cases hhttp : scheme = "http".data
  · simp [hpos, htake, hdrop, hhttp]
    rw [show pyLowerStr ['h', 't', 't', 'p'] = ['h', 't', 't', 'p'] from by decide]
  · simp [hpos, htake, hdrop, hhttp, hall, hany, hlow]

theorem splitQueryFragment_build (path : PyStr) (q f : Option PyStr)
    (hpath : ∀ c ∈ path, c ≠ '?' ∧ c ≠ '#')
    (hq : optNoHash q) :
    splitQueryFragment (path ++ (optPrefixed '?' q ++ optPrefixed '#' f))
      = (path, optVal q, optVal f) := by
  have hpq : hasChar '?' path = false := hasChar_false _ _ fun x hx => (hpath x hx).1
  have hph : hasChar '#' path = false := hasChar_false _ _ fun x hx => (hpath x hx).2
  rcases q with _ | qs <;> rcases f with _ | fs <;>
    simp only [optPrefixed, optVal, List.append_nil, List.nil_append]
  · unfold splitQueryFragment
    simp [hph, hpq]
  · have hh : hasChar '#' (path ++ '#' :: fs) = true := by
      rw [hasChar_append, hph]
      simp [hasChar]
    have hso := splitOnce_append '#' path fs (fun x hx => (hpath x hx).2)
    unfold splitQueryFragment
    simp [hh, hso, hpq]
  · have hq2 : ∀ c ∈ qs, c ≠ '#' := hq
    have hqh : hasChar '#' qs = false := hasChar_false _ _ fun x hx => hq2 x hx
    have hh : hasChar '#' (path ++ '?' :: qs) = false := by
      rw [hasChar_append, hph]
      simp [hasChar, hqh]
    have hqq : hasChar '?' (path ++ '?' :: qs) = true := by
      rw [hasChar_append, hpq]
      simp [hasChar]
    have hso := splitOnce_append '?' path qs (fun x hx => (hpath x hx).1)
    unfold splitQueryFragment
    simp [hh, hqq, hso]
  · have hq2 : ∀ c ∈ qs, c ≠ '#' := hq
    have hqh : hasChar '#' qs = false := hasChar_false _ _ fun x hx => hq2 x hx
    have hrearr : path ++ '?' :: (qs ++ '#' :: fs) = (path ++ '?' :: qs) ++ '#' :: fs := by
      simp
    have hh : hasChar '#' (path ++ '?' :: (qs ++ '#' :: fs)) = true := by
      rw [hrearr, hasChar_append]
      simp [hasChar]
    have hso : splitOnce '#' (path ++ '?' :: (qs ++ '#' :: fs)) = (path ++ '?' :: qs, fs) := by
      rw [hrearr]
      exact splitOnce_append '#' (path ++ '?' :: qs) fs (fun x hx => by
        rcases List.mem_append.mp hx with hx1 | hx2
        · exact (hpath x hx1).2
        · rcases List.mem_cons.mp hx2 with hx3 | hx4
          · subst hx3
            decide
          · exact hq2 x hx4)
    have hqq : hasChar '?' (path ++ '?' :: qs) = true := by
      rw [hasChar_append, hpq]
      simp [hasChar]
    have hso2 := splitOnce_append '?' path qs (fun x hx => (hpath x hx).1)
    unfold splitQueryFragment
    simp [hh, hso, hqq, hso2]

theorem urlsplitTail_build (scheme netloc path : PyStr) (q f : Option PyStr)
    (hnet : ∀ c ∈ netloc, c ≠ '/' ∧ c ≠ '?' ∧ c ≠ '#' ∧ c ≠ '[' ∧ c ≠ ']')
    (hpath : ∀ c ∈ path, c ≠ '?' ∧ c ≠ '#')
    (hpathh : pathShapeOK path)
    (hq : optNoHash q) :
    urlsplitTail scheme ('/' :: '/' :: (netloc ++ (path
        ++ (optPrefixed '?' q ++ optPrefixed '#' f))))
      = .ok ⟨scheme, netloc, path, optVal q, optVal f⟩ := by
  have hallP : ∀ x ∈ netloc, (fun c => !isNetlocDelim c) x = true := by
    intro x hx
    obtain ⟨a1, a2, a3, _, _⟩ := hnet x hx
    simp [isNetlocDelim, a1, a2, a3]
  have hstop : match path ++ (optPrefixed '?' q ++ optPrefixed '#' f) with
      | [] => True | y :: _ => (fun c => !isNetlocDelim c) y = false := by
    rcases pathShapeOK_shape path hpathh with hp | ⟨t, hp⟩
    · subst hp
      rcases q with _ | qs
      · rcases f with _ | fs
        · simp [optPrefixed]
        · simp [optPrefixed, isNetlocDelim]
      · simp [optPrefixed, isNetlocDelim]
    · subst hp
      simp [isNetlocDelim]
  have hsp := takeWhile_append_stop (fun c => !isNetlocDelim c) netloc _ hallP hstop
  have hbr : bracketsInvalid netloc = false := by
    unfold bracketsInvalid
    rw [hasChar_false '[' netloc (fun x hx => (hnet x hx).2.2.2.1),
        hasChar_false ']' netloc (fun x hx => (hnet x hx).2.2.2.2)]
    rfl
  have hsqf := splitQueryFragment_build path q f hpath hq
  unfold urlsplitTail splitNetlocAt
  simp [hsp.1, hsp.2, hbr, hsqf]

theorem urlsplit_build (p : URLParts) (hok : partsOK p) :
    urlsplit (buildURL p) = .ok ⟨p.scheme, p.netloc, p.path,
      optVal p.query, optVal p.fragment⟩ := by
  obtain ⟨h1, h2, h3, h4, h5, h6, h7, h8⟩ := hok
  have hq9 : optNoHash p.query := by
    cases hqe : p.query with
    | none => trivial
    | some qs =>
      rw [hqe] at h7
      have h7b : qs ≠ [] ∧ ∀ c ∈ qs, c ≠ '#' ∧ c ≠ '|' := h7
      exact fun c hc => (h7b.2 c hc).1
  rw [buildURL_normal, urlsplit_scheme p.scheme _ h1 h2 _ rfl]
  exact urlsplitTail_build p.scheme p.netloc p.path p.query p.fragment
    (fun c hc => ⟨(h4 c hc).1, (h4 c hc).2.1, (h4 c hc).2.2.1,
        (h4 c hc).2.2.2.1, (h4 c hc).2.2.2.2.1⟩)
    (fun c hc => ⟨(h5 c hc).1, (h5 c hc).2.1⟩) h6 hq9

theorem urlparse_build (p : URLParts) (hok : partsOK p) :
    urlparse (buildURL p) = .ok ⟨p.scheme, p.netloc, p.path, [],
      optVal p.query, optVal p.fragment⟩ := by
  have hsemi : hasChar ';' p.path = false :=
    hasChar_false _ _ fun x hx => (hok.2.2.2.2.1 x hx).2.2.1
  unfold urlparse
  rw [urlsplit_build p hok]
  simp [hsemi]

theorem urlunparse_build (p : URLParts) (hok : partsOK p) :
    urlunparse ⟨p.scheme, p.netloc, p.path, [],
      optVal p.query, optVal p.fragment⟩ = buildURL p := by
  obtain ⟨h1, h2, h3, h4, h5, h6, h7, h8⟩ := hok
  have hqsplit : p.query = none ∨ ∃ qs, p.query = some qs ∧ qs ≠ [] := by
    cases hqe : p.query with
    | none => exact Or.inl rfl
    | some qs =>
      rw [hqe] at h7
      have h7b : qs ≠ [] ∧ ∀ c ∈ qs, c ≠ '#' ∧ c ≠ '|' := h7
      exact Or.inr ⟨qs, rfl, h7b.1⟩
  have hfsplit : p.fragment = none ∨ ∃ fs, p.fragment = some fs ∧ fs ≠ [] := by
    cases hfe : p.fragment with
    | none => exact Or.inl rfl
    | some fs =>
      rw [hfe] at h8
      have h8b : fs ≠ [] ∧ ∀ c ∈ fs, c ≠ '|' := h8
      exact Or.inr ⟨fs, rfl, h8b.1⟩
  unfold urlunparse urlunsplit
  rw [buildURL_normal]
  rcases pathShapeOK_shape p.path h6 with hp | ⟨t, hp⟩ <;>
    rcases hqsplit with hq | ⟨qs, hq, hqne⟩ <;>
    rcases hfsplit with hf | ⟨fs, hf, hfne⟩ <;>
    simp [hp, hq, hf, h1, h3, optVal, optPrefixed, List.append_assoc, *]

theorem urlparse_roundtrip (u : PyStr) (h : WellFormedURL u) :
    ∃ pr, urlparse u = .ok pr ∧ urlunparse pr = u := by
  obtain ⟨p, hok, rfl⟩ := h
  exact ⟨_, urlparse_build p hok, urlunparse_build p hok⟩

theorem wellformed_no_pipe (u : PyStr) (h : WellFormedURL u) : ∀ x ∈ u, x ≠ '|' := by
  obtain ⟨p, hok, rfl⟩ := h
  obtain ⟨h1, h2, h3, h4, h5, h6, h7, h8⟩ := hok
  intro x hx hxeq
  subst hxeq
  have hmem : hasChar '|' (buildURL p) = true := (hasChar_iff _ _).mpr hx
  rw [buildURL_normal] at hmem
  have hs : hasChar '|' p.scheme = false :=
    hasChar_false _ _ fun x2 hx2 => (schemeChar_ne x2 (h2 x2 hx2).1).2.1
  have hn : hasChar '|' p.netloc = false :=
    hasChar_false _ _ fun x2 hx2 => (h4 x2 hx2).2.2.2.2.2
  have hpp : hasChar '|' p.path = false :=
    hasChar_false _ _ fun x2 hx2 => (h5 x2 hx2).2.2.2
  have hqF : hasChar '|' (optPrefixed '?' p.query) = false := by
    cases hqe : p.query with
    | none => rfl
    | some qs =>
      rw [hqe] at h7
      have h7b : qs ≠ [] ∧ ∀ c ∈ qs, c ≠ '#' ∧ c ≠ '|' := h7
      have hz : hasChar '|' qs = false := hasChar_false _ _ fun x2 hx2 => (h7b.2 x2 hx2).2
      simp [optPrefixed, hasChar, hz]
  have hfF : hasChar '|' (optPrefixed '#' p.fragment) = false := by
    cases hfe : p.fragment with
    | none => rfl
    | some fs =>
      rw [hfe] at h8
      have h8b : fs ≠ [] ∧ ∀ c ∈ fs, c ≠ '|' := h8
      have hz : hasChar '|' fs = false := hasChar_false _ _ fun x2 hx2 => h8b.2 x2 hx2
      simp [optPrefixed, hasChar, hz]
  rw [hasChar_append] at hmem
  simp only [hs, Bool.false_or] at hmem
  rw [show hasChar '|' (':' :: '/' :: '/' :: (p.netloc ++ (p.path ++
        (optPrefixed '?' p.query ++ optPrefixed '#' p.fragment)))) =
        hasChar '|' (p.netloc ++ (p.path ++
          (optPrefixed '?' p.query ++ optPrefixed '#' p.fragment))) from by
      simp [hasChar]] at hmem
  rw [hasChar_append, hasChar_append, hasChar_append] at hmem
  simp [hs, hn, hpp, hqF, hfF] at hmem

theorem mapME_roundtrip : ∀ L : List PyStr, (∀ u ∈ L, WellFormedURL u) →
    ∃ us, mapME urlparse L = .ok us ∧ us.map urlunparse = L ∧ us.length = L.length := by
  intro L
  induction L with
  | nil => intro _; exact ⟨[], rfl, rfl, rfl⟩
  | cons u L2 ih =>
    intro hall
    obtain ⟨pr, hok, hun⟩ := urlparse_roundtrip u (hall u (List.mem_cons_self _ _))
    obtain ⟨us, hok2, hmap, hlen⟩ := ih fun v hv => hall v (List.mem_cons_of_mem _ hv)
    refine ⟨pr :: us, ?_, ?_, ?_⟩
    · simp [mapME, hok, hok2]
    · simp [hmap, hun]
    · simp [hlen]

/-- C7: constructing a `URLService` from the pipe-joined string of N
well-formed URLs and calling `url_string()` reproduces the original string,
with the N endpoints parsed in their original order. -/
theorem C7_url_roundtrip (L : List PyStr) (hne : L ≠ []) (hwf : ∀ u ∈ L, WellFormedURL u) :
    ∃ us, setUrlsStr (joinChar '|' L) = .ok us ∧
      mapME urlparse L = .ok us ∧ us.length = L.length ∧
      urlString us = joinChar '|' L := by
  have hsplit : pipeSplitStr (joinChar '|' L) = L := by
    match L, hne with
    | [u], _ =>
      rw [show joinChar '|' [u] = u from rfl]
      unfold pipeSplitStr
      rw [hasChar_false '|' u (fun x hx => wellformed_no_pipe u
            (hwf u (List.mem_cons_self _ _)) x hx)]
      rfl
    | a :: b :: ts, _ =>
      unfold pipeSplitStr
      rw [hasChar_joinChar_two]
      rw [if_pos rfl]
      exact splitAllChar_joinChar '|' _ (by simp)
        (fun l hl x2 hx2 => wellformed_no_pipe l (hwf l hl) x2 hx2)
  obtain ⟨us, hok, hmap, hlen⟩ := mapME_roundtrip L hwf
  refine ⟨us, ?_, hok, hlen, ?_⟩
  · unfold setUrlsStr
    rw [hsplit]
    exact hok
  · unfold urlString
    rw [hmap]

/-- Witness for `C7_url_roundtrip` on two concrete well-formed URLs. -/
theorem C7_url_roundtrip_witness :
    ∃ us, setUrlsStr (joinChar '|' [c7U1, c7U2]) = .ok us ∧
      mapME urlparse [c7U1, c7U2] = .ok us ∧ us.length = [c7U1, c7U2].length ∧
      urlString us = joinChar '|' [c7U1, c7U2] := by
  refine C7_url_roundtrip [c7U1, c7U2] (by simp) ?_
  intro u hu
  rcases List.mem_cons.mp hu with hh | hm
  · subst hh
    exact ⟨c7P1, by decide, by decide⟩
  · rcases List.mem_cons.mp hm with hh | hm2
    · subst hh
      exact ⟨c7P2, by decide, by decide⟩
    · cases hm2

/-! # Helper lemmas: netloc parsing (`partition` / `rpartition`) -/

theorem pyPartition_no (c : Char) (s : PyStr) (h : ∀ x ∈ s, x ≠ c) :
    pyPartition c s = (s, false, []) := by
  induction s with
  | nil => rfl
  | cons d rest ih =>
    have hd : d ≠ c := h d (List.mem_cons_self _ _)
    simp [pyPartition, hd, ih (fun x hx => h x (List.mem_cons_of_mem _ hx))]

theorem pyPartition_first (c : Char) (xs ys : PyStr) (h : ∀ x ∈ xs, x ≠ c) :
    pyPartition c (xs ++ c :: ys) = (xs, true, ys) := by
  induction xs with
  | nil => simp [pyPartition]
  | cons d rest ih =>
    have hd : d ≠ c := h d (List.mem_cons_self _ _)
    simp [pyPartition, hd, ih (fun x hx => h x (List.mem_cons_of_mem _ hx))]

theorem pyRPartition_no (c : Char) (s : PyStr) (h : ∀ x ∈ s, x ≠ c) :
    pyRPartition c s = ([], false, s) := by
  induction s with
  | nil => rfl
  | cons d rest ih =>
    have hd : d ≠ c := h d (List.mem_cons_self _ _)
    simp [pyRPartition, hd, ih (fun x hx => h x (List.mem_cons_of_mem _ hx))]

theorem pyRPartition_last (c : Char) (xs ys : PyStr) (h : ∀ x ∈ ys, x ≠ c) :
    pyRPartition c (xs ++ c :: ys) = (xs, true, ys) := by
  induction xs with
  | nil =>
    simp only [List.nil_append]
    simp [pyRPartition, pyRPartition_no c ys h]
  | cons d rest ih =>
    simp [pyRPartition, ih]

theorem digit_ne (c : Char) (h : c.isDigit = true) :
    c ≠ '@' ∧ c ≠ ':' ∧ c ≠ '[' ∧ c ≠ ']' := by
  refine ⟨?_, ?_, ?_, ?_⟩ <;> intro heq <;> subst heq <;> exact absurd h (by decide)

theorem portPart_chars (portD : Option PyStr) (hp : portDigitsOK portD) :
    ∀ x ∈ portPart portD, x ≠ '@' ∧ x ≠ '[' ∧ x ≠ ']' := by
  rcases portD with _ | pd
  · intro x hx
    cases hx
  · intro x hx
    have hp2 : pd ≠ [] ∧ ∀ c ∈ pd, c.isDigit = true := hp
    rcases List.mem_cons.mp hx with hh | ht
    · subst hh
      refine ⟨by decide, by decide, by decide⟩
    · obtain ⟨a, _, b, c2⟩ := digit_ne x (hp2.2 x ht)
      exact ⟨a, b, c2⟩

theorem canonPort_ok (portD : Option PyStr) :
    portDigitsOK (canonPort portD) := by
  rcases portD with _ | pd
  · trivial
  · exact ⟨natDigits_ne_nil _, natDigits_digits _⟩

theorem canonPort_nonzero (portD : Option PyStr) (hz : portNZ portD) :
    portNZ (canonPort portD) := by
  rcases portD with _ | pd
  · trivial
  · have hz2 : natOfDigits pd ≠ 0 := hz
    show natOfDigits (natDigits (natOfDigits pd)) ≠ 0
    rw [natOfDigits_natDigits]
    exact hz2

/-- The hostinfo analysis of `host ++ portPart portD` (no userinfo). -/
theorem hostinfoPair_noAt (host : PyStr) (portD : Option PyStr)
    (hh : ∀ c ∈ host, c ≠ '@' ∧ c ≠ ':' ∧ c ≠ '[' ∧ c ≠ ']')
    (hp : portDigitsOK portD) :
    hostinfoPair (host ++ portPart portD) = (host, portD) := by
  have hnoAt : ∀ x ∈ host ++ portPart portD, x ≠ '@' := by
    intro x hx
    rcases List.mem_append.mp hx with h1 | h2
    · exact (hh x h1).1
    · exact (portPart_chars portD hp x h2).1
  have hnoBr : ∀ x ∈ host ++ portPart portD, x ≠ '[' := by
    intro x hx
    rcases List.mem_append.mp hx with h1 | h2
    · exact (hh x h1).2.2.1
    · exact (portPart_chars portD hp x h2).2.1
  unfold hostinfoPair
  rw [pyRPartition_no '@' _ hnoAt]
  simp only []
  rw [pyPartition_no '[' _ hnoBr]
  rcases portD with _ | pd
  · simp [portPart, pyPartition_no ':' host (fun x hx => (hh x hx).2.1)]
  · have hp2 : pd ≠ [] ∧ ∀ c ∈ pd, c.isDigit = true := hp
    simp [portPart, pyPartition_first ':' host pd (fun x hx => (hh x hx).2.1), hp2.1]

/-- The hostinfo analysis of `ui ++ '@' :: (host ++ portPart portD)`. -/
theorem hostinfoPair_at (ui host : PyStr) (portD : Option PyStr)
    (hh : ∀ c ∈ host, c ≠ '@' ∧ c ≠ ':' ∧ c ≠ '[' ∧ c ≠ ']')
    (hp : portDigitsOK portD) :
    hostinfoPair (ui ++ '@' :: (host ++ portPart portD)) = (host, portD) := by
  have hnoAt : ∀ x ∈ host ++ portPart portD, x ≠ '@' := by
    intro x hx
    rcases List.mem_append.mp hx with h1 | h2
    · exact (hh x h1).1
    · exact (portPart_chars portD hp x h2).1
  have hnoBr : ∀ x ∈ host ++ portPart portD, x ≠ '[' := by
    intro x hx
    rcases List.mem_append.mp hx with h1 | h2
    · exact (hh x h1).2.2.1
    · exact (portPart_chars portD hp x h2).2.1
  unfold hostinfoPair
  rw [pyRPartition_last '@' ui _ hnoAt]
  simp only []
  rw [pyPartition_no '[' _ hnoBr]
  rcases portD with _ | pd
  · simp [portPart, pyPartition_no ':' host (fun x hx => (hh x hx).2.1)]
  · have hp2 : pd ≠ [] ∧ ∀ c ∈ pd, c.isDigit = true := hp
    simp [portPart, pyPartition_first ':' host pd (fun x hx => (hh x hx).2.1), hp2.1]

theorem userinfoPair_noAt (s : PyStr) (h : ∀ x ∈ s, x ≠ '@') :
    userinfoPair s = (.vnone, .vnone) := by
  unfold userinfoPair
  rw [pyRPartition_no '@' s h]
  simp

theorem userinfoPair_at (ui base : PyStr) (h : ∀ x ∈ base, x ≠ '@') :
    userinfoPair (ui ++ '@' :: base) =
      (.vstr (pyPartition ':' ui).1,
       if (pyPartition ':' ui).2.1 then .vstr (pyPartition ':' ui).2.2 else .vnone) := by
  unfold userinfoPair
  rw [pyRPartition_last '@' ui base h]
  simp

/-! # Helper lemmas: netloc properties of a decomposed netloc -/

theorem props_mkNetloc (t : ParseResult) (np : NetlocParts) (hb : wfNetlocBase np)
    (hn : t.netloc = mkNetloc np) :
    t.username = userVal np.user ∧ t.password = pwVal np.user np.pw ∧
    t.hostname = .vstr np.host ∧ portProp t = .ok (portVal np.portDigits) := by
  obtain ⟨u, pw, host, portD⟩ := np
  obtain ⟨hb1, hb2, hb3, hb4⟩ := hb
  have hhost4 : ∀ c ∈ host, c ≠ '@' ∧ c ≠ ':' ∧ c ≠ '[' ∧ c ≠ ']' :=
    fun c hc => ⟨(hb2 c hc).1, (hb2 c hc).2.1, (hb2 c hc).2.2.1, (hb2 c hc).2.2.2.1⟩
  have hlow : pyLowerStr host = host := pyLowerStr_id _ fun c hc => (hb2 c hc).2.2.2.2
  have hnoAt : ∀ x ∈ host ++ portPart portD, x ≠ '@' := by
    intro x hx
    rcases List.mem_append.mp hx with h1 | h2
    · exact (hhost4 x h1).1
    · exact (portPart_chars portD hb3 x h2).1
  have hport : hostinfoPair t.netloc = (host, portD) → portProp t = .ok (portVal portD) := by
    intro hq
    unfold portProp
    rw [hq]
    rcases portD with _ | pd
    · rfl
    · have hp2 : pd ≠ [] ∧ ∀ c ∈ pd, c.isDigit = true := hb3
      have hall : pd.all Char.isDigit = true := List.all_eq_true.mpr hp2.2
      simp [hall, portVal]
  have hhost : hostinfoPair t.netloc = (host, portD) → t.hostname = .vstr host := by
    intro hq
    unfold ParseResult.hostname
    rw [hq]
    simp [hb1, hlow]
  rcases u with _ | us <;> rcases pw with _ | pws
  · have hmk : t.netloc = host ++ portPart portD := hn
    have hq : hostinfoPair t.netloc = (host, portD) := by
      rw [hmk]
      exact hostinfoPair_noAt host portD hhost4 hb3
    have hui : userinfoPair t.netloc = (.vnone, .vnone) := by
      rw [hmk]
      exact userinfoPair_noAt _ hnoAt
    exact ⟨by unfold ParseResult.username; rw [hui]; exact rfl,
           by unfold ParseResult.password; rw [hui]; exact rfl, hhost hq, hport hq⟩
  · exact (hb4 : False).elim
  · have hcred : us ≠ [] ∧ ∀ c ∈ us, c ≠ ':' ∧ c ≠ '@' := hb4
    have hmk : t.netloc = us ++ '@' :: (host ++ portPart portD) := hn
    have hq : hostinfoPair t.netloc = (host, portD) := by
      rw [hmk]
      exact hostinfoPair_at us host portD hhost4 hb3
    have hui : userinfoPair t.netloc = (.vstr us, .vnone) := by
      rw [hmk, userinfoPair_at us _ hnoAt,
          pyPartition_no ':' us (fun x hx => (hcred.2 x hx).1)]
      simp
    exact ⟨by unfold ParseResult.username; rw [hui]; exact rfl,
           by unfold ParseResult.password; rw [hui]; exact rfl, hhost hq, hport hq⟩
  · have hcred : (∀ c ∈ us, c ≠ ':' ∧ c ≠ '@') ∧ pws ≠ [] ∧ ∀ c ∈ pws, c ≠ '@' := hb4
    have hmk : t.netloc = (us ++ ':' :: pws) ++ '@' :: (host ++ portPart portD) := hn
    have hq : hostinfoPair t.netloc = (host, portD) := by
      rw [hmk]
      exact hostinfoPair_at _ host portD hhost4 hb3
    have hui : userinfoPair t.netloc = (.vstr us, .vstr pws) := by
      rw [hmk, userinfoPair_at _ _ hnoAt,
          pyPartition_first ':' us pws (fun x hx => (hcred.1 x hx).1)]
      simp
    exact ⟨by unfold ParseResult.username; rw [hui]; exact rfl,
           by unfold ParseResult.password; rw [hui]; exact rfl, hhost hq, hport hq⟩

theorem credSelect (us : PyStr) :
    (if (Value.vstr us).truthy = true then Value.vstr us else .vstr []) = .vstr us := by
  rcases us with _ | ⟨c, rest⟩ <;> simp [Value.truthy]

theorem portRebuild (portD : Option PyStr) (hz : portNZ portD) :
    (if (portVal portD).truthy = true then ':' :: pyStrVal (portVal portD) else [])
      = portPart (canonPort portD) := by
  rcases portD with _ | pd
  · rfl
  · have hz2 : natOfDigits pd ≠ 0 := hz
    simp [portVal, Value.truthy, hz2, pyStrVal, canonPort, portPart]

theorem mkNetloc_eq (np : NetlocParts) :
    mkNetloc np = credsPrefix np.user np.pw ++ (np.host ++ portPart np.portDigits) := by
  obtain ⟨u, pw, host, portD⟩ := np
  rcases u with _ | us <;> rcases pw with _ | pws <;>
    simp [mkNetloc, credsPrefix, List.append_assoc]

theorem userVal_shape (o : Option PyStr) :
    userVal o = .vnone ∨ ∃ s, userVal o = .vstr s := by
  rcases o with _ | us
  · exact Or.inl rfl
  · exact Or.inr ⟨us, rfl⟩

theorem pwVal_shape (o w : Option PyStr) :
    pwVal o w = .vnone ∨ ∃ s, pwVal o w = .vstr s := by
  rcases o with _ | us <;> rcases w with _ | pws
  · exact Or.inl rfl
  · exact Or.inl rfl
  · exact Or.inl rfl
  · exact Or.inr ⟨pws, rfl⟩

theorem portVal_canon (portD : Option PyStr) :
    portVal (canonPort portD) = portVal portD := by
  rcases portD with _ | pd
  · rfl
  · simp [portVal, canonPort, natOfDigits_natDigits]

theorem truthy_vnone : Value.truthy .vnone = false := rfl

theorem truthy_vstr (s : PyStr) :
    Value.truthy (.vstr s) = if s = [] then false else true := rfl

theorem rebuildNetloc_creds (u pw : Option PyStr) (hcred : credsOK u pw)
    (hv : PyStr) (portv : Value) :
    rebuildNetloc (.vstr hv) portv (userVal u) (pwVal u pw) =
      .ok (credsPrefix u pw
        ++ (hv ++ (if portv.truthy = true then ':' :: pyStrVal portv else []))) := by
  rcases u with _ | us <;> rcases pw with _ | pws
  · simp [rebuildNetloc, userVal, pwVal, truthy_vnone, credsPrefix]
  · exact (hcred : False).elim
  · have hc : us ≠ [] ∧ ∀ c ∈ us, c ≠ ':' ∧ c ≠ '@' := hcred
    simp [rebuildNetloc, userVal, pwVal, truthy_vstr, truthy_vnone, hc.1, credsPrefix,
      List.append_assoc]
  · have hc : (∀ c ∈ us, c ≠ ':' ∧ c ≠ '@') ∧ pws ≠ [] ∧ ∀ c ∈ pws, c ≠ '@' := hcred
    by_cases hus : us = [] <;>
      simp [rebuildNetloc, userVal, pwVal, truthy_vstr, hc.2.1, hus, credsPrefix,
        List.append_assoc]

theorem rebuildNetloc_shape (host : PyStr) (portD : Option PyStr) (hz : portNZ portD)
    (userv passv : Value)
    (hus : userv = .vnone ∨ ∃ s, userv = .vstr s)
    (hps : passv = .vnone ∨ ∃ s, passv = .vstr s) :
    ∃ N, rebuildNetloc (.vstr host) (portVal portD) userv passv = .ok N ∧
      (N = host ++ portPart (canonPort portD) ∨
       ∃ ui, N = ui ++ '@' :: (host ++ portPart (canonPort portD))) := by
  have hrb := portRebuild portD hz
  rcases hus with h1 | ⟨s1, h1⟩ <;> rcases hps with h2 | ⟨s2, h2⟩ <;> subst h1 <;> subst h2
  · refine ⟨host ++ portPart (canonPort portD), ?_, Or.inl rfl⟩
    simp [rebuildNetloc, truthy_vnone, hrb]
  · by_cases hs2 : s2 = []
    · refine ⟨host ++ portPart (canonPort portD), ?_, Or.inl rfl⟩
      simp [rebuildNetloc, truthy_vnone, truthy_vstr, hs2, hrb]
    · refine ⟨(':' :: s2) ++ '@' :: (host ++ portPart (canonPort portD)), ?_,
        Or.inr ⟨':' :: s2, rfl⟩⟩
      simp [rebuildNetloc, truthy_vnone, truthy_vstr, hs2, hrb]
  · by_cases hs1 : s1 = []
    · refine ⟨host ++ portPart (canonPort portD), ?_, Or.inl rfl⟩
      simp [rebuildNetloc, truthy_vnone, truthy_vstr, hs1, hrb]
    · refine ⟨s1 ++ '@' :: (host ++ portPart (canonPort portD)), ?_,
        Or.inr ⟨s1, rfl⟩⟩
      simp [rebuildNetloc, truthy_vnone, truthy_vstr, hs1, hrb]
  · by_cases hs2 : s2 = []
    · by_cases hs1 : s1 = []
      · refine ⟨host ++ portPart (canonPort portD), ?_, Or.inl rfl⟩
        simp [rebuildNetloc, truthy_vstr, hs1, hs2, hrb]
      · refine ⟨s1 ++ '@' :: (host ++ portPart (canonPort portD)), ?_,
          Or.inr ⟨s1, rfl⟩⟩
        simp [rebuildNetloc, truthy_vstr, hs1, hs2, hrb]
    · by_cases hs1 : s1 = []
      · refine ⟨(([] : PyStr) ++ ':' :: s2) ++ '@' :: (host ++ portPart (canonPort portD)),
          ?_, Or.inr ⟨[] ++ ':' :: s2, rfl⟩⟩
        simp [rebuildNetloc, truthy_vstr, hs1, hs2, hrb]
      · refine ⟨(s1 ++ ':' :: s2) ++ '@' :: (host ++ portPart (canonPort portD)), ?_,
          Or.inr ⟨s1 ++ ':' :: s2, rfl⟩⟩
        simp [rebuildNetloc, truthy_vstr, hs1, hs2, hrb]

theorem props_of_hostinfo (t2 : ParseResult) (host : PyStr) (portD : Option PyStr)
    (hb1 : host ≠ []) (hlow : pyLowerStr host = host)
    (hp : portDigitsOK portD)
    (hq : hostinfoPair t2.netloc = (host, portD)) :
    t2.hostname = .vstr host ∧ portProp t2 = .ok (portVal portD) := by
  constructor
  · unfold ParseResult.hostname
    rw [hq]
    simp [hb1, hlow]
  · unfold portProp
    rw [hq]
    rcases portD with _ | pd
    · rfl
    · have hp2 : pd ≠ [] ∧ ∀ c ∈ pd, c.isDigit = true := hp
      have hall : pd.all Char.isDigit = true := List.all_eq_true.mpr hp2.2
      simp [hall, portVal]

theorem replacePart1_hostname (t : ParseResult) (np : NetlocParts)
    (hb : wfNetlocBase np) (hz : portNonzero np) (hn : t.netloc = mkNetloc np)
    (v : PyStr) :
    replacePart1 t .hostname (.vstr v) =
      .ok { t with
        netloc := mkNetloc { np with host := v, portDigits := canonPort np.portDigits } } := by
  obtain ⟨hu, hpw, hh, hp⟩ := props_mkNetloc t np hb hn
  have hz2 : portNZ np.portDigits := hz
  have hrb := portRebuild np.portDigits hz2
  have hcr := rebuildNetloc_creds np.user np.pw hb.2.2.2 v (portVal np.portDigits)
  unfold replacePart1
  simp [hp, hu, hpw, hh, hcr, hrb, mkNetloc_eq]

theorem replacePart1_port (t : ParseResult) (np : NetlocParts)
    (hb : wfNetlocBase np) (hn : t.netloc = mkNetloc np) (v : PyStr) :
    replacePart1 t .port (.vstr v) =
      .ok { t with
        netloc := mkNetloc { np with portDigits := if v = [] then none else some v } } := by
  obtain ⟨hu, hpw, hh, hp⟩ := props_mkNetloc t np hb hn
  have hcr := rebuildNetloc_creds np.user np.pw hb.2.2.2 np.host (.vstr v)
  have hport : (if (Value.vstr v).truthy = true then ':' :: pyStrVal (.vstr v) else [])
      = portPart (if v = [] then none else some v) := by
    by_cases hve : v = [] <;> simp [Value.truthy, hve, pyStrVal, portPart]
  unfold replacePart1
  simp [hp, hu, hpw, hh, hcr, hport, mkNetloc_eq]

theorem replacePart1_cred_frame (t : ParseResult) (np : NetlocParts)
    (hb : wfNetlocBase np) (hz : portNonzero np) (hn : t.netloc = mkNetloc np)
    (part : UPart) (hpart : part = UPart.username ∨ part = UPart.password)
    (v : Value) (hv : v = .vnone ∨ ∃ s, v = .vstr s) :
    ∃ t2, replacePart1 t part v = .ok t2 ∧
      t2.scheme = t.scheme ∧ t2.path = t.path ∧ t2.params = t.params ∧
      t2.query = t.query ∧ t2.fragment = t.fragment ∧
      t2.hostname = .vstr np.host ∧ portProp t2 = .ok (portVal np.portDigits) := by
  obtain ⟨hu, hpw, hh, hp⟩ := props_mkNetloc t np hb hn
  have hz2 : portNZ np.portDigits := hz
  have hhost4 : ∀ c ∈ np.host, c ≠ '@' ∧ c ≠ ':' ∧ c ≠ '[' ∧ c ≠ ']' :=
    fun c hc => ⟨(hb.2.1 c hc).1, (hb.2.1 c hc).2.1, (hb.2.1 c hc).2.2.1,
      (hb.2.1 c hc).2.2.2.1⟩
  have hlow : pyLowerStr np.host = np.host :=
    pyLowerStr_id _ fun c hc => (hb.2.1 c hc).2.2.2.2
  have hfinish : ∀ N : PyStr,
      (N = np.host ++ portPart (canonPort np.portDigits) ∨
       ∃ ui, N = ui ++ '@' :: (np.host ++ portPart (canonPort np.portDigits))) →
      ParseResult.hostname { t with netloc := N } = .vstr np.host ∧
      portProp { t with netloc := N } = .ok (portVal np.portDigits) := by
    intro N hshape
    have hq : hostinfoPair ({ t with netloc := N } : ParseResult).netloc
        = (np.host, canonPort np.portDigits) := by
      show hostinfoPair N = _
      rcases hshape with h | ⟨ui, h⟩
      · rw [h]
        exact hostinfoPair_noAt np.host _ hhost4 (canonPort_ok _)
      · rw [h]
        exact hostinfoPair_at ui np.host _ hhost4 (canonPort_ok _)
    have hpr := props_of_hostinfo _ np.host _ hb.1 hlow (canonPort_ok _) hq
    exact ⟨hpr.1, by rw [hpr.2, portVal_canon]⟩
  rcases hpart with hp1 | hp1 <;> subst hp1
  · obtain ⟨N, heq, hshape⟩ := rebuildNetloc_shape np.host np.portDigits hz2
      v (pwVal np.user np.pw) hv (pwVal_shape np.user np.pw)
    refine ⟨{ t with netloc := N }, ?_, rfl, rfl, rfl, rfl, rfl,
      (hfinish N hshape).1, (hfinish N hshape).2⟩
    unfold replacePart1
    simp [hp, hu, hpw, hh, heq]
  · obtain ⟨N, heq, hshape⟩ := rebuildNetloc_shape np.host np.portDigits hz2
      (userVal np.user) v (userVal_shape np.user) hv
    refine ⟨{ t with netloc := N }, ?_, rfl, rfl, rfl, rfl, rfl,
      (hfinish N hshape).1, (hfinish N hshape).2⟩
    unfold replacePart1
    simp [hp, hu, hpw, hh, heq]

theorem mapME_map {α β ε : Type} (f : α → Except ε β) (g : α → β) :
    ∀ vs : List α, (∀ v ∈ vs, f v = .ok (g v)) → mapME f vs = .ok (vs.map g)
  | [], _ => rfl
  | v :: vs, h => by
    have h1 := h v (List.mem_cons_self _ _)
    have h2 := mapME_map f g vs fun x hx => h x (List.mem_cons_of_mem _ hx)
    simp [mapME, h1, h2]

theorem canonPort_idem (po : Option PyStr) :
    canonPort (canonPort po) = canonPort po := by
  rcases po with _ | p
  · rfl
  · simp [canonPort, natOfDigits_natDigits]

theorem hostSetter_assign (u0 : ParseResult) (np : NetlocParts)
    (hb : wfNetlocBase np) (hz : portNonzero np) (hn : u0.netloc = mkNetloc np)
    (v : PyStr) : hostSetter u0 v = .ok (hostAssign np u0 v) :=
  replacePart1_hostname u0 np hb hz hn v

theorem hostAssign_idem (u0 : ParseResult) (np : NetlocParts)
    (hb : wfNetlocBase np) (hz : portNonzero np) (hn : u0.netloc = mkNetloc np)
    (v0 : PyStr) (h0 : hostValOK v0) (v : PyStr) :
    hostSetter (hostAssign np u0 v0) v = .ok (hostAssign np u0 v) := by
  have hb' : wfNetlocBase { np with host := v0, portDigits := canonPort np.portDigits } :=
    ⟨h0.1, h0.2, canonPort_ok _, hb.2.2.2⟩
  have hz' : portNonzero { np with host := v0, portDigits := canonPort np.portDigits } :=
    canonPort_nonzero _ hz
  have h := replacePart1_hostname (hostAssign np u0 v0)
    { np with host := v0, portDigits := canonPort np.portDigits } hb' hz' rfl v
  show replacePart1 (hostAssign np u0 v0) .hostname (.vstr v) = _
  rw [h]
  simp [hostAssign, canonPort_idem]

theorem portSetter_assign (u0 : ParseResult) (np : NetlocParts)
    (hb : wfNetlocBase np) (hn : u0.netloc = mkNetloc np)
    (v : PyStr) (hv : v ≠ []) : portSetter u0 v = .ok (portAssign np u0 v) := by
  have h := replacePart1_port u0 np hb hn v
  show replacePart1 u0 .port (.vstr v) = _
  rw [h]
  simp [portAssign, hv]

theorem portAssign_idem (u0 : ParseResult) (np : NetlocParts)
    (hb : wfNetlocBase np) (hn : u0.netloc = mkNetloc np)
    (v0 : PyStr) (h0 : v0 ≠ []) (h0d : ∀ c ∈ v0, c.isDigit = true)
    (v : PyStr) (hv : v ≠ []) :
    portSetter (portAssign np u0 v0) v = .ok (portAssign np u0 v) := by
  have hb' : wfNetlocBase { np with portDigits := some v0 } :=
    ⟨hb.1, hb.2.1, ⟨h0, h0d⟩, hb.2.2.2⟩
  have h := replacePart1_port (portAssign np u0 v0)
    { np with portDigits := some v0 } hb' rfl v
  show replacePart1 (portAssign np u0 v0) .port (.vstr v) = _
  rw [h]
  simp [portAssign, hv]

/-- C8 counterexample: the template endpoint of `urlparse('http://@h/x')`
has the empty string as its `username` property; assigning `host` the
single value `h2` through the multi-value setter yields the endpoint
`http://h2/x`, whose `username` is `None` — the new endpoint is not a copy
of the template with only the host replaced, because rebuilding the netloc
from its properties silently drops the falsy empty credential. -/
theorem C8_counterexample :
    c8T.username = .vstr [] ∧
    mvSetVals hostSetter [c8T] [['h', '2']] = .ok [c8T2] ∧
    c8T2.username = .vnone ∧ c8T2.path = c8T.path :=
  ⟨rfl, rfl, rfl, rfl⟩

/-- C8 (amended): for a `URLService` whose first endpoint's netloc
decomposes as a well-formed `[user[:pw]@]host[:port]` with a nonzero port,
assigning a nonempty sequence of k host values (each a plain lowercase
hostname) or k nonempty digit port values through
`URLMultiValueDescriptor.__set__` succeeds and leaves exactly k endpoints,
endpoint i being the first pre-assignment endpoint with the assigned part
replaced by value i and the port digits rebuilt from the integer port
property; performing the same assignment again yields the same endpoint
list. -/
theorem C8_multi_value_set (u0 : ParseResult) (rest : List ParseResult)
    (np : NetlocParts) (hb : wfNetlocBase np) (hz : portNonzero np)
    (hn : u0.netloc = mkNetloc np) (vs : List PyStr) (hvs : vs ≠ []) :
    ((∀ v ∈ vs, hostValOK v) →
      ∃ urls2, mvSetVals hostSetter (u0 :: rest) vs = .ok urls2 ∧
        urls2 = vs.map (hostAssign np u0) ∧
        urls2.length = vs.length ∧
        mvSetVals hostSetter urls2 vs = .ok urls2) ∧
    ((∀ v ∈ vs, v ≠ [] ∧ ∀ c ∈ v, c.isDigit = true) →
      ∃ urls2, mvSetVals portSetter (u0 :: rest) vs = .ok urls2 ∧
        urls2 = vs.map (portAssign np u0) ∧
        urls2.length = vs.length ∧
        mvSetVals portSetter urls2 vs = .ok urls2) := by
  rcases vs with _ | ⟨v0, vs'⟩
  · exact absurd rfl hvs
  constructor
  · intro hok
    refine ⟨(v0 :: vs').map (hostAssign np u0), ?_, rfl, by simp, ?_⟩
    · show mapME (hostSetter u0) (v0 :: vs') = _
      exact mapME_map _ _ _ fun v _ => hostSetter_assign u0 np hb hz hn v
    · show mapME (hostSetter (hostAssign np u0 v0)) (v0 :: vs') = _
      exact mapME_map _ _ _ fun v _ =>
        hostAssign_idem u0 np hb hz hn v0 (hok v0 (List.mem_cons_self _ _)) v
  · intro hdig
    refine ⟨(v0 :: vs').map (portAssign np u0), ?_, rfl, by simp, ?_⟩
    · show mapME (portSetter u0) (v0 :: vs') = _
      exact mapME_map _ _ _ fun v hv => portSetter_assign u0 np hb hn v (hdig v hv).1
    · show mapME (portSetter (portAssign np u0 v0)) (v0 :: vs') = _
      exact mapME_map _ _ _ fun v hv =>
        portAssign_idem u0 np hb hn v0 (hdig v0 (List.mem_cons_self _ _)).1
          (hdig v0 (List.mem_cons_self _ _)).2 v (hdig v hv).1

/-- C8 witness: the amended statement applied to the concrete template
`http://user:pw@db.example:5432/app` and the host values `h1|h2`. -/
theorem C8_multi_value_set_witness :
    wfNetlocBase c8WNp ∧ portNonzero c8WNp ∧ c8WT.netloc = mkNetloc c8WNp ∧
    ([['h', '1'], ['h', '2']] : List PyStr) ≠ [] ∧
    (∀ v ∈ ([['h', '1'], ['h', '2']] : List PyStr), hostValOK v) ∧
    ∃ urls2, mvSetVals hostSetter [c8WT] [['h', '1'], ['h', '2']] = .ok urls2 ∧
      urls2 = [['h', '1'], ['h', '2']].map (hostAssign c8WNp c8WT) ∧
      urls2.length = 2 ∧
      mvSetVals hostSetter urls2 [['h', '1'], ['h', '2']] = .ok urls2 := by
  refine ⟨by decide, by decide, rfl, by decide, by decide, ?_⟩
  exact (C8_multi_value_set c8WT [] c8WNp (by decide) (by decide) rfl
    [['h', '1'], ['h', '2']] (by decide)).1 (by decide)

/-- C9 counterexample: `urlparse('http://h:0/p')` has port property `0`;
setting its `username` to `u` rebuilds the netloc as `u@h` — the falsy
port `0` is silently dropped, so setting the user part does not leave the
port component equal to its prior value. -/
theorem C9_counterexample :
    portProp c9T = .ok (.vint 0) ∧
    replacePart1 c9T .username (.vstr ['u']) = .ok c9T2 ∧
    portProp c9T2 = .ok .vnone ∧ c9T2.path = c9T.path :=
  ⟨rfl, rfl, rfl, rfl⟩

/-- C9 (amended): for a parsed URL whose netloc decomposes as a well-formed
`[user[:pw]@]host[:port]` with a nonzero port: `replace_part` with part
`hostname` (any plain lowercase host value) or `port` (any nonempty digit
value) succeeds and preserves the `username`, `password` and `path`
components, and `replace_part` with part `username` or `password` (a
`None` or string value) succeeds and preserves the `hostname`, `port` and
`path` components. -/
theorem C9_replace_part_frame (t : ParseResult) (np : NetlocParts)
    (hb : wfNetlocBase np) (hz : portNonzero np) (hn : t.netloc = mkNetloc np) :
    (∀ v : PyStr, hostValOK v →
      ∃ t2, replacePart1 t .hostname (.vstr v) = .ok t2 ∧
        t2.username = t.username ∧ t2.password = t.password ∧ t2.path = t.path) ∧
    (∀ v : PyStr, v ≠ [] → (∀ c ∈ v, c.isDigit = true) →
      ∃ t2, replacePart1 t .port (.vstr v) = .ok t2 ∧
        t2.username = t.username ∧ t2.password = t.password ∧ t2.path = t.path) ∧
    (∀ part : UPart, (part = UPart.username ∨ part = UPart.password) →
      ∀ v : Value, (v = .vnone ∨ ∃ s, v = .vstr s) →
      ∃ t2, replacePart1 t part v = .ok t2 ∧
        t2.hostname = t.hostname ∧ portProp t2 = portProp t ∧ t2.path = t.path) := by
  obtain ⟨hu, hpw, hh, hp⟩ := props_mkNetloc t np hb hn
  refine ⟨?_, ?_, ?_⟩
  · intro v hv
    have hb' : wfNetlocBase { np with host := v, portDigits := canonPort np.portDigits } :=
      ⟨hv.1, hv.2, canonPort_ok _, hb.2.2.2⟩
    obtain ⟨hu2, hpw2, hh2, hp2⟩ := props_mkNetloc (hostAssign np t v)
      { np with host := v, portDigits := canonPort np.portDigits } hb' rfl
    exact ⟨hostAssign np t v, hostSetter_assign t np hb hz hn v,
      by rw [hu2, hu], by rw [hpw2, hpw], rfl⟩
  · intro v hvne hvd
    have hb' : wfNetlocBase { np with portDigits := some v } :=
      ⟨hb.1, hb.2.1, ⟨hvne, hvd⟩, hb.2.2.2⟩
    obtain ⟨hu2, hpw2, hh2, hp2⟩ := props_mkNetloc (portAssign np t v)
      { np with portDigits := some v } hb' rfl
    exact ⟨portAssign np t v, portSetter_assign t np hb hn v hvne,
      by rw [hu2, hu], by rw [hpw2, hpw], rfl⟩
  · intro part hpart v hv
    obtain ⟨t2, heq, hs, hpa, hpr, hq, hf, hh2, hp2⟩ :=
      replacePart1_cred_frame t np hb hz hn part hpart v hv
    exact ⟨t2, heq, by rw [hh2, hh], by rw [hp2, hp], hpa⟩

/-- C9 witness: the amended statement applied to
`http://user:pw@db.example:5432/app`, setting `username` to `alice`. -/
theorem C9_replace_part_frame_witness :
    wfNetlocBase c8WNp ∧ portNonzero c8WNp ∧ c8WT.netloc = mkNetloc c8WNp ∧
    (UPart.username = UPart.username ∨ UPart.username = UPart.password) ∧
    (Value.vstr ['a'] = .vnone ∨ ∃ s, Value.vstr ['a'] = .vstr s) ∧
    ∃ t2, replacePart1 c8WT .username (.vstr ['a']) = .ok t2 ∧
      t2.hostname = c8WT.hostname ∧ portProp t2 = portProp c8WT ∧
      t2.path = c8WT.path := by
  refine ⟨by decide, by decide, rfl, Or.inl rfl, Or.inr ⟨['a'], rfl⟩, ?_⟩
  exact (C9_replace_part_frame c8WT c8WNp (by decide) (by decide) rfl).2.2
    UPart.username (Or.inl rfl) (.vstr ['a']) (Or.inr ⟨['a'], rfl⟩)
